import Mathlib

/-!
# lab25.c: a two-stage line-processing pipeline

Shallow embedding of `src/lab25.c` and proofs about it.

Conventions of the embedding.

* A C string is the list of its bytes before the terminating NUL, each byte
  a natural number in `0..255` (`Str`).  `strlen` is `List.length` and
  `strcpy` copies the list.
* A `for (i = 0; i < n; i++)` loop whose bound is computed before the loop
  is a left fold of the loop body over `List.range n`.
* A function pointer of type `mod_fun` is the name of the function it points
  to; calling it is `mod_fun.call`.
* A read outside an array is undefined behaviour in C; the embedding stops
  with a `Fault` there.
* The three threads are interleaved at the granularity of the critical
  sections: one `main` loop iteration, and for a worker the four statements
  of its loop body (`receive_data`, the call of `mode_fun`, `mt_printf`,
  `send_data`).  A `main` iteration touches shared data in one place only
  (the `send_data` of the `NORMAL` branch, or the two stores of the
  `CHANGE_MODE` branch, of which a worker reads `mode_fun` alone), so a
  worker step that falls inside an iteration can be moved before or after
  it.  Where the order of the two stores matters they are the separate
  steps `store_m` and `store_mode_fun`.
* The locals `thread_no` of `main` and `in_buf` of the workers keep their
  storage across loop iterations and are part of the state.
-/

namespace Lab25

/-! ## Macros and constants -/

/-- The macro `IN_BUF_SIZE`. -/
def IN_BUF_SIZE : Nat := 1024

/-- The macro `NUM_THREADS`. -/
def NUM_THREADS : Nat := 2

/-- The bytes of a C string, terminator excluded. -/
abbrev Str := List Nat

/-! ## Type definitions -/

/-- The enumeration `mbox_status`. -/
inductive mbox_status where
  | EMPTY
  | FULL
  deriving DecidableEq, Repr

/-- The enumeration `state` of the input loop. -/
inductive state where
  | CHOOSE_THREAD
  | CHANGE_MODE
  | NORMAL
  deriving DecidableEq, Repr

/-- The enumerators `TRANSLATE`, ..., `INVERT_CASE` of `enum Mode`, as the
integers the compiler assigns them. -/
def TRANSLATE : Nat := 0

/-- Enumerator `REVERSE`. -/
def REVERSE : Nat := 1

/-- Enumerator `SWAP`. -/
def SWAP : Nat := 2

/-- Enumerator `KOI8`. -/
def KOI8 : Nat := 3

/-- Enumerator `TO_UPPER`. -/
def TO_UPPER : Nat := 4

/-- Enumerator `TO_LOWER`. -/
def TO_LOWER : Nat := 5

/-- Enumerator `INVERT_CASE`. -/
def INVERT_CASE : Nat := 6

/-- Enumerator `MODE_COUNT`, the number of modes. -/
def MODE_COUNT : Nat := 7

/-- A value of type `mod_fun`: a pointer to one of the seven string
functions of the program. -/
inductive mod_fun where
  | translate
  | reverse
  | swap
  | koi8
  | to_upper
  | to_lower
  | invert_case
  deriving DecidableEq, Repr

/-- The struct `thread_info`, without the mutex and the condition variable
(their effect is the atomicity of `send_data` and `receive_data`). -/
structure thread_info where
  mailbox : Str
  mailbox_status : mbox_status
  mode_fun : mod_fun
  m : Nat
  deriving DecidableEq, Repr

/-! ## The C library functions the program calls -/

/-- The function `toupper` in the "C" locale (the program never calls
`setlocale`). -/
def toupper (c : Nat) : Nat :=
  if 97 ≤ c ∧ c ≤ 122 then c - 32 else c

/-- The function `tolower` in the "C" locale. -/
def tolower (c : Nat) : Nat :=
  if 65 ≤ c ∧ c ≤ 90 then c + 32 else c

/-- The function `isupper` in the "C" locale. -/
def isupper (c : Nat) : Bool :=
  decide (65 ≤ c ∧ c ≤ 90)

/-- The function `islower` in the "C" locale. -/
def islower (c : Nat) : Bool :=
  decide (97 ≤ c ∧ c ≤ 122)

/-- The function `isspace` in the "C" locale: space, and `\t \n \v \f \r`. -/
def isspace (c : Nat) : Bool :=
  decide (c = 32 ∨ (9 ≤ c ∧ c ≤ 13))

/-- The function `isdigit`. -/
def isdigit (c : Nat) : Bool :=
  decide (48 ≤ c ∧ c ≤ 57)

/-- The call `strcspn(s, "\n")`: the length of the initial segment of `s`
free of newlines. -/
def strcspn_nl (s : Str) : Nat :=
  (s.takeWhile (fun c => c != 10)).length

/-- The call `sscanf(in_buf, "%u", &x) > 0` together with the value stored
in `x`: `none` when nothing is converted (matching or input failure, `x`
untouched), `some v` when `v` is stored.  White space is skipped, one
optional sign is read, then the longest run of decimal digits; the value
is converted as by `strtoul` (64-bit `unsigned long`, saturating, negated
modulo `2^64` after a minus sign) and narrowed to the 32-bit
`unsigned int`. -/
def sscanf_u (in_buf : Str) : Option Nat :=
  let rest := in_buf.dropWhile isspace
  let neg : Bool := rest.head? = some 45
  let rest := if rest.head? = some 45 ∨ rest.head? = some 43 then rest.tail else rest
  let digits := rest.takeWhile isdigit
  if digits = [] then none
  else
    let v := digits.foldl (fun acc d => acc * 10 + (d - 48)) 0
    let ul := if 2 ^ 64 ≤ v then 2 ^ 64 - 1 else if neg then (2 ^ 64 - v) % 2 ^ 64 else v
    some (ul % 2 ^ 32)

/-! ## The string functions -/

/-- The function `translate`: the body is empty. -/
def translate (str : Str) : Str := str

/-- The body of the loop of `reverse` at index `i`:
`c = str[i]; str[i] = str[len-i-1]; str[len-i-1] = c;`. -/
def reverse_body (len : Nat) (str : Str) (i : Nat) : Str :=
  let c := str.getD i 0
  let str := str.set i (str.getD (len - i - 1) 0)
  str.set (len - i - 1) c

/-- The function `reverse`. -/
def reverse (str : Str) : Str :=
  let len := str.length
  let size := len / 2
  (List.range size).foldl (reverse_body len) str

/-- The body of the loop of `swap` at index `i`:
`c = str[i*2]; str[i*2] = str[i*2+1]; str[i*2+1] = c;`. -/
def swap_body (str : Str) (i : Nat) : Str :=
  let c := str.getD (i * 2) 0
  let str := str.set (i * 2) (str.getD (i * 2 + 1) 0)
  str.set (i * 2 + 1) c

/-- The function `swap`. -/
def swap (str : Str) : Str :=
  let len := str.length
  let size := len / 2
  (List.range size).foldl swap_body str

/-- The body of the loop of `koi8` at index `i`: `str[i] |= 0x80;`, the
result stored in a `char`. -/
def koi8_body (str : Str) (i : Nat) : Str :=
  str.set i ((str.getD i 0 ||| 0x80) % 256)

/-- The function `koi8`. -/
def koi8 (str : Str) : Str :=
  let len := str.length
  (List.range len).foldl koi8_body str

/-- The body of the loop of `to_upper` at index `i`:
`str[i] = toupper(str[i]);`. -/
def to_upper_body (str : Str) (i : Nat) : Str :=
  str.set i (toupper (str.getD i 0))

/-- The function `to_upper`. -/
def to_upper (str : Str) : Str :=
  let len := str.length
  (List.range len).foldl to_upper_body str

/-- The body of the loop of `to_lower` at index `i`:
`str[i] = tolower(str[i]);`. -/
def to_lower_body (str : Str) (i : Nat) : Str :=
  str.set i (tolower (str.getD i 0))

/-- The function `to_lower`. -/
def to_lower (str : Str) : Str :=
  let len := str.length
  (List.range len).foldl to_lower_body str

/-- The body of the loop of `invert_case` at index `i`. -/
def invert_case_body (str : Str) (i : Nat) : Str :=
  if isupper (str.getD i 0) then
    str.set i (tolower (str.getD i 0))
  else if islower (str.getD i 0) then
    str.set i (toupper (str.getD i 0))
  else
    str

/-- The function `invert_case`. -/
def invert_case (str : Str) : Str :=
  let len := str.length
  (List.range len).foldl invert_case_body str

/-- The call `f(str)` through a pointer `f` of type `mod_fun`. -/
def mod_fun.call : mod_fun → Str → Str
  | .translate => Lab25.translate
  | .reverse => Lab25.reverse
  | .swap => Lab25.swap
  | .koi8 => Lab25.koi8
  | .to_upper => Lab25.to_upper
  | .to_lower => Lab25.to_lower
  | .invert_case => Lab25.invert_case

/-! ## Global variables -/

/-- The array `mode_names`. -/
def mode_names : List String :=
  ["Translate", "Reverse", "Swap", "KOI8", "To upper case", "To lower case", "Invert case"]

/-- The array `mode_functions`. -/
def mode_functions : List mod_fun :=
  [.translate, .reverse, .swap, .koi8, .to_upper, .to_lower, .invert_case]

/-! ## Program state -/

/-- Undefined behaviour the embedding detects: an array indexed outside its
bounds. -/
inductive Fault where
  | thread_infos_index (i : Nat)
  | mode_names_index (i : Nat)
  | mode_functions_index (i : Nat)
  deriving DecidableEq, Repr

/-- One call of `mt_printf`, named after its format string and carrying its
arguments. -/
inductive Output where
  /-- The format "Type string and press enter\n". -/
  | type_string
  /-- The format "Choose mode for thread %i: [%s]\n". -/
  | choose_mode (thread_no : Nat) (name : String)
  /-- The format "%i) %s\n". -/
  | mode_item (i : Nat) (name : String)
  /-- The format "Invalid thread number %i\nChoose thread number 1-%i:\n". -/
  | invalid_thread (thread_no : Nat)
  /-- The format "Choose thread number 1-%i:\n". -/
  | choose_thread
  /-- The format "\nChoose thread number 1-%i:\n" of the signal handler. -/
  | sigint_choose_thread
  /-- The formats "[thread 0] ...", "[thread 1] ...", "[thread 2] ...",
  each printing the text between double quotes. -/
  | trace (thread : Nat) (text : Str)
  deriving DecidableEq, Repr

/-- Where a worker thread stands in the body of its `while(1)` loop: before
`receive_data`, before the call of `info->mode_fun`, before `mt_printf`,
before `send_data`. -/
inductive Pc where
  | receive
  | call
  | print
  | send
  deriving DecidableEq, Repr

/-- The state of the running program: the array `thread_infos` (two
entries), the global `st`, the local `thread_no` of `main` (it keeps its
storage from one loop iteration to the next), the locals `in_buf` of the
two worker threads with their program points, and what was printed. -/
structure State where
  info0 : thread_info
  info1 : thread_info
  st : state
  thread_no : Nat
  pc1 : Pc
  in_buf1 : Str
  pc2 : Pc
  in_buf2 : Str
  out : List Output
  deriving DecidableEq, Repr

/-- The read of `thread_infos[i]`. -/
def State.get_info (s : State) (i : Nat) : Except Fault thread_info :=
  if i = 0 then .ok s.info0
  else if i = 1 then .ok s.info1
  else .error (.thread_infos_index i)

/-- The write `thread_infos[i] = info`. -/
def State.set_info (s : State) (i : Nat) (info : thread_info) : Except Fault State :=
  if i = 0 then .ok { s with info0 := info }
  else if i = 1 then .ok { s with info1 := info }
  else .error (.thread_infos_index i)

/-- The function `mt_printf`: the global lock makes each call one atomic
append to the output. -/
def State.mt_printf (s : State) (o : Output) : State :=
  { s with out := s.out ++ [o] }

/-- The read of `mode_names[i]`. -/
def mode_names_at (i : Nat) : Except Fault String :=
  match mode_names[i]? with
  | some name => .ok name
  | none => .error (.mode_names_index i)

/-- The read of `mode_functions[i]`. -/
def mode_functions_at (i : Nat) : Except Fault mod_fun :=
  match mode_functions[i]? with
  | some f => .ok f
  | none => .error (.mode_functions_index i)

/-- The expression `thread_no-1` on `unsigned int`: zero wraps around to
`2^32 - 1`. -/
def pred_u32 (thread_no : Nat) : Nat :=
  if thread_no = 0 then 2 ^ 32 - 1 else thread_no - 1

/-! ## Mailbox operations -/

/-- The function `send_data`: under the lock of `info`, copy `buf` into the
mailbox and set the status to `FULL`.  The status is not read. -/
def send_data (buf : Str) (info : thread_info) : thread_info :=
  { info with mailbox := buf, mailbox_status := .FULL }

/-- The function `receive_data`: under the lock of `info`, wait while the
status is `EMPTY` (`none`: the caller stays blocked in `pthread_cond_wait`),
then copy the mailbox out and set the status to `EMPTY`.  The result is the
text copied into `buf` and the new `*info`. -/
def receive_data (info : thread_info) : Option (Str × thread_info) :=
  match info.mailbox_status with
  | .EMPTY => none
  | .FULL => some (info.mailbox, { info with mailbox_status := .EMPTY })

/-! ## The input loop of `main` -/

/-- The loop printing the mode catalog in state `CHOOSE_THREAD`. -/
def print_modes (s : State) : Except Fault State :=
  (List.range MODE_COUNT).foldlM
    (fun s i => do
      let name ← mode_names_at i
      pure (s.mt_printf (.mode_item i name))) s

/-- One iteration of the `while(1)` loop of `main`, on the line `in_buf`
that `fgets` returned. -/
def main_iter (s : State) (in_buf : Str) : Except Fault State :=
  match s.st with
  | .CHOOSE_THREAD =>
    match sscanf_u in_buf with
    | some thread_no =>
      let s := { s with thread_no := thread_no }
      if 1 ≤ thread_no ∧ thread_no ≤ NUM_THREADS then do
        let info ← s.get_info (pred_u32 thread_no)
        let name ← mode_names_at info.m
        let s := s.mt_printf (.choose_mode thread_no name)
        let s ← print_modes s
        pure { s with st := .CHANGE_MODE }
      else
        pure (s.mt_printf (.invalid_thread thread_no))
    | none => pure (s.mt_printf .choose_thread)
  | .CHANGE_MODE => do
    let s ← match sscanf_u in_buf with
      | some mode => do
        let info ← s.get_info (pred_u32 s.thread_no)
        let s ← s.set_info (pred_u32 s.thread_no) { info with m := mode }
        let f ← mode_functions_at mode
        let info ← s.get_info (pred_u32 s.thread_no)
        s.set_info (pred_u32 s.thread_no) { info with mode_fun := f }
      | none => pure s
    let s := { s with st := .NORMAL }
    pure (s.mt_printf .type_string)
  | .NORMAL =>
    let in_buf := in_buf.take (strcspn_nl in_buf)
    let s := s.mt_printf (.trace 0 in_buf)
    pure { s with info0 := send_data in_buf s.info0 }

/-- The function `sigint_handler`: `.error arg` is the call `exit(arg)`. -/
def sigint_handler (arg : Int) (s : State) : Except Int State :=
  if s.st ≠ .NORMAL then .error arg
  else
    let s := s.mt_printf .sigint_choose_thread
    .ok { s with st := .CHOOSE_THREAD }

/-! ## The worker threads -/

/-- One statement of the loop of `thread1` (`info` is `&thread_infos[0]`,
`next_thread` is `&thread_infos[1]`); `none` while blocked in
`receive_data`. -/
def thread1 (s : State) : Option State :=
  match s.pc1 with
  | .receive =>
    match receive_data s.info0 with
    | some (buf, info) => some { s with in_buf1 := buf, info0 := info, pc1 := .call }
    | none => none
  | .call => some { s with in_buf1 := s.info0.mode_fun.call s.in_buf1, pc1 := .print }
  | .print => some { s.mt_printf (.trace 1 s.in_buf1) with pc1 := .send }
  | .send => some { s with info1 := send_data s.in_buf1 s.info1, pc1 := .receive }

/-- One statement of the loop of `thread2` (`info` is `&thread_infos[1]`);
`none` while blocked in `receive_data`.  The loop has no `send_data`. -/
def thread2 (s : State) : Option State :=
  match s.pc2 with
  | .receive =>
    match receive_data s.info1 with
    | some (buf, info) => some { s with in_buf2 := buf, info1 := info, pc2 := .call }
    | none => none
  | .call => some { s with in_buf2 := s.info1.mode_fun.call s.in_buf2, pc2 := .print }
  | .print => some { s.mt_printf (.trace 2 s.in_buf2) with pc2 := .receive }
  | .send => none

/-! ## Executions -/

/-- The state once the initialisation part of `main` is done: every
descriptor `EMPTY` with `translate`/`TRANSLATE`, both workers at the top of
their loops, `st` at its static initialiser `NORMAL`, the first prompt
printed.  The local `thread_no` is not initialised; it is written by
`sscanf` before `st` can become `CHANGE_MODE`. -/
def init : State :=
  { info0 := { mailbox := [], mailbox_status := .EMPTY, mode_fun := .translate, m := TRANSLATE }
    info1 := { mailbox := [], mailbox_status := .EMPTY, mode_fun := .translate, m := TRANSLATE }
    st := .NORMAL
    thread_no := 0
    pc1 := .receive
    in_buf1 := []
    pc2 := .receive
    in_buf2 := []
    out := [.type_string] }

/-- A scheduling choice: `main` runs one loop iteration on a line, or a
worker runs its next statement. -/
inductive Action where
  | main (in_buf : Str)
  | thread1
  | thread2
  deriving DecidableEq, Repr

/-- One step of the program; `none` when the chosen thread is blocked or
the step is undefined behaviour. -/
def step (s : State) : Action → Option State
  | .main in_buf =>
    match main_iter s in_buf with
    | .ok s => some s
    | .error _ => none
  | .thread1 => thread1 s
  | .thread2 => thread2 s

/-- The execution of a schedule from `s`. -/
def run (s : State) : List Action → Option State
  | [] => some s
  | a :: rest =>
    match step s a with
    | some s => run s rest
    | none => none

/-! ## Vocabulary of the properties -/

/-- A text the program holds in a `char [IN_BUF_SIZE]` buffer: shorter than
the buffer, every byte in `1..255`. -/
def is_text (s : Str) : Prop :=
  s.length < IN_BUF_SIZE ∧ ∀ c ∈ s, 0 < c ∧ c < 256

instance (s : Str) : Decidable (is_text s) := by
  unfold is_text
  infer_instance

/-- The worker thread of stage `k` (`thread1` for stage 1, `thread2` for
stage 2), as a scheduling choice. -/
def stage_thread (k : Nat) : Action :=
  if k = 1 then .thread1 else .thread2

/-- The program point of the worker of stage `k`. -/
def State.stage_pc (s : State) (k : Nat) : Pc :=
  if k = 1 then s.pc1 else s.pc2

/-- The local buffer `in_buf` of the worker of stage `k`. -/
def State.stage_in_buf (s : State) (k : Nat) : Str :=
  if k = 1 then s.in_buf1 else s.in_buf2

/-- Every descriptor holds a mode that is an index of the registry. -/
def State.modes_in_range (s : State) : Prop :=
  s.info0.m < MODE_COUNT ∧ s.info1.m < MODE_COUNT

instance (s : State) : Decidable s.modes_in_range := by
  unfold State.modes_in_range
  infer_instance

/-- The index in `thread_infos` of the mailbox the step calls `send_data`
on, if it does: `main` in state `NORMAL` sends to `thread_infos[0]`,
`thread1` at its `send_data` statement sends to `thread_infos[1]`. -/
def sends_to (s : State) : Action → Option Nat
  | .main _ => if s.st = .NORMAL then some 0 else none
  | .thread1 => if s.pc1 = .send then some 1 else none
  | .thread2 => none

/-- The index in `thread_infos` of the mailbox the step calls
`receive_data` on, if it does. -/
def receives_from (s : State) : Action → Option Nat
  | .main _ => none
  | .thread1 => if s.pc1 = .receive then some 0 else none
  | .thread2 => if s.pc2 = .receive then some 1 else none

/-- The field `thread_infos[i].mailbox_status`, for `i` 0 or 1. -/
def State.status (s : State) (i : Nat) : mbox_status :=
  if i = 0 then s.info0.mailbox_status else s.info1.mailbox_status

/-- The field `thread_infos[i].mailbox`, for `i` 0 or 1. -/
def State.mailbox (s : State) (i : Nat) : Str :=
  if i = 0 then s.info0.mailbox else s.info1.mailbox

/-- The texts of the traces "[thread n] ..." in the output, oldest first. -/
def traces (n : Nat) (out : List Output) : List Str :=
  out.filterMap (fun o =>
    match o with
    | .trace k t => if k = n then some t else none
    | _ => none)

/-- The lines `main` consumes in a schedule, each cut at its newline as
`main` does in state `NORMAL`. -/
def lines_sent (acts : List Action) : List Str :=
  acts.filterMap (fun a =>
    match a with
    | .main in_buf => some (in_buf.take (strcspn_nl in_buf))
    | _ => none)

/-- In the schedule run from `s`, `main` consumes a line only when the
mailbox of stage 1 is `EMPTY`, that is after `thread1` has drained the
previous line. -/
def main_waits (s : State) : List Action → Bool
  | [] => true
  | a :: rest =>
    (match a with
      | .main _ => decide (s.info0.mailbox_status = .EMPTY)
      | _ => true) &&
    (match step s a with
      | some s' => main_waits s' rest
      | none => true)

/-- In the schedule run from `s`, every `send_data` finds its mailbox
`EMPTY`. -/
def sends_wait (s : State) : List Action → Bool
  | [] => true
  | a :: rest =>
    (match sends_to s a with
      | some i => decide (s.status i = .EMPTY)
      | none => true) &&
    (match step s a with
      | some s' => sends_wait s' rest
      | none => true)

/-- Both workers wait in `receive_data` on `EMPTY` mailboxes: nothing is in
the pipeline. -/
def State.idle (s : State) : Prop :=
  s.pc1 = .receive ∧ s.pc2 = .receive
    ∧ s.info0.mailbox_status = .EMPTY ∧ s.info1.mailbox_status = .EMPTY

instance (s : State) : Decidable s.idle := by
  unfold State.idle
  infer_instance

/-- The texts inside the pipeline, the one nearest to the end first: the
buffer of `thread2` between its `receive_data` and its trace, the mailbox
of stage 2 when `FULL`, the buffer of `thread1` between its `receive_data`
and its `send_data`, the mailbox of stage 1 when `FULL`. -/
def in_flight (s : State) : List Str :=
  (if s.pc2 = .call ∨ s.pc2 = .print then [s.in_buf2] else [])
    ++ (if s.info1.mailbox_status = .FULL then [s.info1.mailbox] else [])
    ++ (if s.pc1 = .receive then [] else [s.in_buf1])
    ++ (if s.info0.mailbox_status = .FULL then [s.info0.mailbox] else [])

/-! ## Start-up -/

/-- A descriptor as seen during start-up: `mode_fun` is `none` while it is
still the null pointer of zero-initialised static storage. -/
structure boot_info where
  mailbox_status : mbox_status
  mode_fun : Option mod_fun
  m : Nat
  deriving DecidableEq, Repr

/-- The state of the initialisation loop of `main`: the static array
`thread_infos` and the indices `i` of the workers `thread_funs[i]` that
`pthread_create` has started so far. -/
structure Boot where
  thread_infos : List boot_info
  started : List Nat
  deriving DecidableEq, Repr

/-- A descriptor in zero-initialised static storage: `EMPTY` and
`TRANSLATE` are the enumerators of value 0, the function pointer is null. -/
def boot_info_zero : boot_info :=
  { mailbox_status := .EMPTY, mode_fun := none, m := 0 }

/-- Before the loop: `thread_infos` has static storage, so every field is
zero (`EMPTY`, null pointer, `TRANSLATE`), and no worker is started. -/
def boot_zero : Boot :=
  { thread_infos := List.replicate NUM_THREADS boot_info_zero
    started := [] }

/-- The descriptor the loop body writes. -/
def boot_info_ready : boot_info :=
  { mailbox_status := .EMPTY, mode_fun := some .translate, m := TRANSLATE }

/-- The assignments of the loop body to `*info`, `info = &thread_infos[i]`:
`mailbox_status = EMPTY`, `mode_fun = translate`, `m = TRANSLATE` (and the
initialisation of its mutex and condition variable). -/
def boot_init_info (i : Nat) (b : Boot) : Boot :=
  { b with thread_infos := b.thread_infos.set i boot_info_ready }

/-- The call `pthread_create(&tinfo[i], NULL, thread_funs[i], info)` that
ends the loop body. -/
def boot_pthread_create (i : Nat) (b : Boot) : Boot :=
  { b with started := b.started ++ [i] }

/-- The states the loop `for(i=0; i<NUM_THREADS; i++)` goes through, in
order: the state before the loop and, for each `i`, the state after the
assignments and the state after `pthread_create`. -/
def boot_states : List Boot :=
  (List.range NUM_THREADS).foldl
    (fun states i =>
      let b := states.getLastD boot_zero
      let b1 := boot_init_info i b
      let b2 := boot_pthread_create i b1
      states ++ [b1, b2])
    [boot_zero]

/-! ## The two stores of the `CHANGE_MODE` branch -/

/-- The first store of the `CHANGE_MODE` branch:
`thread_infos[thread_no-1].m = mode;`. -/
def store_m (s : State) (mode : Nat) : Except Fault State := do
  let info ← s.get_info (pred_u32 s.thread_no)
  s.set_info (pred_u32 s.thread_no) { info with m := mode }

/-- The second store of the `CHANGE_MODE` branch:
`thread_infos[thread_no-1].mode_fun = mode_functions[mode];`. -/
def store_mode_fun (s : State) (mode : Nat) : Except Fault State := do
  let f ← mode_functions_at mode
  let info ← s.get_info (pred_u32 s.thread_no)
  s.set_info (pred_u32 s.thread_no) { info with mode_fun := f }

/-- The end of the `CHANGE_MODE` branch: `st = NORMAL;` and the prompt. -/
def change_mode_end (s : State) : State :=
  State.mt_printf { s with st := .NORMAL } .type_string

/-! ## Inputs of the input loop -/

/-- What the input loop reacts to: a line from `fgets`, or the signal
`SIGINT` (signal number 2). -/
inductive Input where
  | line (in_buf : Str)
  | sigint
  deriving DecidableEq, Repr

/-- The reaction to one input; `none` when the process exits or the step
is undefined behaviour. -/
def dispatch (s : State) : Input → Option State
  | .line in_buf =>
    match main_iter s in_buf with
    | .ok s => some s
    | .error _ => none
  | .sigint =>
    match sigint_handler 2 s with
    | .ok s => some s
    | .error _ => none

/-- The reactions to a sequence of inputs. -/
def dispatch_run (s : State) : List Input → Option State
  | [] => some s
  | i :: rest =>
    match dispatch s i with
    | some s => dispatch_run s rest
    | none => none

/-- The mode of a descriptor is an index of the registry and its function
is the registry entry at that index. -/
def thread_info.consistent (info : thread_info) : Prop :=
  mode_functions[info.m]? = some info.mode_fun

instance (info : thread_info) : Decidable info.consistent := by
  unfold thread_info.consistent
  infer_instance

/-- The worker steps that bring the line in the mailbox of stage 1 into the
buffer of the worker of stage `k`: for stage 1 the `receive_data` of
`thread1`; for stage 2 the four statements of `thread1` (the last one
forwards the text) and the `receive_data` of `thread2`. -/
def carry_to (k : Nat) : List Action :=
  if k = 1 then [.thread1]
  else [.thread1, .thread1, .thread1, .thread1, .thread2]

/-! # Proofs -/

/-! ## Loops that rewrite one byte per index -/

theorem foldl_set_length (f : Nat → Nat) (s : Str) (k : Nat) :
    ((List.range k).foldl (fun str i => str.set i (f (str.getD i 0))) s).length = s.length := by
  induction k with
  | zero => rfl
  | succ k ih =>
    rw [List.range_succ, List.foldl_append]
    simp only [List.foldl_cons, List.foldl_nil, List.length_set]
    exact ih

theorem foldl_set_getElem? (f : Nat → Nat) (s : Str) (k : Nat) (hk : k ≤ s.length) (j : Nat) :
    ((List.range k).foldl (fun str i => str.set i (f (str.getD i 0))) s)[j]? =
      if j < k then s[j]?.map f else s[j]? := by
  induction k with
  | zero => simp
  | succ k ih =>
    have ih := ih (by omega)
    rw [List.range_succ, List.foldl_append]
    simp only [List.foldl_cons, List.foldl_nil]
    rw [List.getElem?_set, foldl_set_length]
    by_cases hjk : k = j
    · subst hjk
      have h1 : k < s.length := by omega
      rw [List.getD_eq_getElem?_getD, ih]
      simp [h1]
    · rw [if_neg hjk, ih]
      by_cases h2 : j < k
      · simp [h2, Nat.lt_succ_of_lt h2]
      · have h3 : ¬ j < k + 1 := by omega
        simp [h2, h3]

theorem foldl_set_eq_map (f : Nat → Nat) (s : Str) :
    (List.range s.length).foldl (fun str i => str.set i (f (str.getD i 0))) s = s.map f := by
  apply List.ext_getElem?
  intro j
  rw [foldl_set_getElem? f s s.length (Nat.le_refl _) j, List.getElem?_map]
  by_cases h : j < s.length
  · simp [h]
  · simp [h, List.getElem?_eq_none (Nat.le_of_not_lt h)]

/-! ## `koi8` -/

theorem koi8_eq_map (s : Str) : koi8 s = s.map (fun c => (c ||| 0x80) % 256) :=
  foldl_set_eq_map (fun c => (c ||| 0x80) % 256) s

theorem or_0x80_idem (c : Nat) :
    (((c ||| 0x80) % 256) ||| 0x80) % 256 = (c ||| 0x80) % 256 := by
  show (((c ||| 0x80) % 2 ^ 8) ||| 0x80) % 2 ^ 8 = (c ||| 0x80) % 2 ^ 8
  apply Nat.eq_of_testBit_eq
  intro i
  simp only [Nat.testBit_mod_two_pow, Nat.testBit_or]
  cases decide (i < 8) <;> cases c.testBit i <;> cases (Nat.testBit 128 i) <;> rfl

/-- C1 as stated fails: the one-byte text "a" (byte 97) becomes byte 225
under `koi8` and stays 225 under a second `koi8`, so `koi8 (koi8 s)` is not
`s`. -/
theorem koi8_twice_not_original :
    is_text [97] ∧ koi8 [97] = [225] ∧ koi8 (koi8 [97]) = [225] ∧ koi8 (koi8 [97]) ≠ [97] := by
  decide

/-- C1, amended: `koi8` sets bit `0x80` of every byte, so applying it twice
gives the same text as applying it once, `koi8 (koi8 s) = koi8 s`. -/
theorem koi8_twice_eq_once (s : Str) : koi8 (koi8 s) = koi8 s := by
  rw [koi8_eq_map, koi8_eq_map, List.map_map]
  apply List.map_congr_left
  intro c _
  exact or_0x80_idem c

/-! ## `reverse` -/

theorem reverse_loop_length (len : Nat) (s : Str) (k : Nat) :
    ((List.range k).foldl (reverse_body len) s).length = s.length := by
  induction k with
  | zero => rfl
  | succ k ih =>
    rw [List.range_succ, List.foldl_append]
    simp only [List.foldl_cons, List.foldl_nil, reverse_body, List.length_set]
    exact ih

/-- Loop invariant of `reverse`: after `k` iterations the first `k` and the
last `k` positions hold the mirrored bytes, the middle is untouched. -/
theorem reverse_loop_getElem? (s : Str) (k : Nat) (hk : k ≤ s.length / 2) (j : Nat) :
    ((List.range k).foldl (reverse_body s.length) s)[j]? =
      if j < k ∨ (s.length - k ≤ j ∧ j < s.length) then s[s.length - 1 - j]? else s[j]? := by
  induction k generalizing j with
  | zero =>
    have h : ¬ (j < 0 ∨ (s.length - 0 ≤ j ∧ j < s.length)) := by omega
    rw [if_neg h]; rfl
  | succ k ih =>
    have ih := fun j => ih (by omega) j
    rw [List.range_succ, List.foldl_append]
    simp only [List.foldl_cons, List.foldl_nil, reverse_body]
    rw [List.getElem?_set, List.getElem?_set, List.length_set, reverse_loop_length,
      List.getD_eq_getElem?_getD, List.getD_eq_getElem?_getD, ih k, ih (s.length - k - 1)]
    have hlen : 2 * (k + 1) ≤ s.length := by omega
    have c1 : ¬ (k < k ∨ (s.length - k ≤ k ∧ k < s.length)) := by omega
    have c2 : ¬ (s.length - k - 1 < k ∨
        (s.length - k ≤ s.length - k - 1 ∧ s.length - k - 1 < s.length)) := by
      omega
    rw [if_neg c1, if_neg c2]
    have e1 : s[k]? = some (s[k]) := List.getElem?_eq_getElem (by omega)
    have e2 : s[s.length - k - 1]? = some (s[s.length - k - 1]) :=
      List.getElem?_eq_getElem (by omega)
    rw [e1, e2]
    simp only [Option.getD_some]
    by_cases h1 : s.length - k - 1 = j
    · subst h1
      have c3 : (s.length - k - 1 < k + 1 ∨
          (s.length - (k + 1) ≤ s.length - k - 1 ∧ s.length - k - 1 < s.length)) := by
        omega
      have e3 : s.length - 1 - (s.length - k - 1) = k := by omega
      rw [if_pos rfl, if_pos (by omega), if_pos c3, e3, e1]
    · rw [if_neg h1]
      by_cases h2 : k = j
      · subst h2
        have e3 : s.length - 1 - k = s.length - k - 1 := by omega
        rw [if_pos rfl, if_pos (by omega), if_pos (by omega), e3, e2]
      · rw [if_neg h2, ih j]
        by_cases h3 : j < k ∨ (s.length - k ≤ j ∧ j < s.length)
        · rw [if_pos h3, if_pos (by omega)]
        · rw [if_neg h3, if_neg (by omega)]

/-- The swap loop of `reverse` computes the reversed list. -/
theorem reverse_eq_reverse (s : Str) : reverse s = s.reverse := by
  apply List.ext_getElem?
  intro j
  show ((List.range (s.length / 2)).foldl (reverse_body s.length) s)[j]? = s.reverse[j]?
  rw [reverse_loop_getElem? s (s.length / 2) (Nat.le_refl _) j]
  by_cases hj : j < s.length
  · rw [List.getElem?_reverse hj]
    by_cases h : j < s.length / 2 ∨ (s.length - s.length / 2 ≤ j ∧ j < s.length)
    · rw [if_pos h]
    · rw [if_neg h]
      have : s.length - 1 - j = j := by omega
      rw [this]
  · have h1 : s.reverse[j]? = none := List.getElem?_eq_none (by simp; omega)
    have h2 : s[j]? = none := List.getElem?_eq_none (by omega)
    have h3 : ¬ (j < s.length / 2 ∨ (s.length - s.length / 2 ≤ j ∧ j < s.length)) := by omega
    rw [h1, if_neg h3, h2]

/-- C7: for every text `s`, applying `reverse` twice yields `s` again. -/
theorem reverse_twice (s : Str) : reverse (reverse s) = s := by
  rw [reverse_eq_reverse, reverse_eq_reverse, List.reverse_reverse]

/-! ## Mailbox operations -/

/-- C8: `send_data t` leaves the mailbox holding `t` with status `FULL` and
the mode and transform of the stage as they were; `receive_data` on a `FULL`
mailbox returns the buffer and sets the status to `EMPTY`; hence
`receive_data` after `send_data t` returns `t` and leaves the mailbox
`EMPTY`.  (The embedding does not bound the length of `t`; in particular
the statement holds for every text that fits the buffer.) -/
theorem send_receive (info : thread_info) (t : Str) :
    send_data t info = { info with mailbox := t, mailbox_status := .FULL }
    ∧ (send_data t info).mode_fun = info.mode_fun ∧ (send_data t info).m = info.m
    ∧ receive_data { info with mailbox_status := .FULL }
        = some (info.mailbox, { info with mailbox_status := .EMPTY })
    ∧ receive_data (send_data t info)
        = some (t, { info with mailbox := t, mailbox_status := .EMPTY }) :=
  ⟨rfl, rfl, rfl, rfl, rfl⟩

/-! ## The input loop -/

theorem print_modes_ok (s : State) :
    print_modes s = .ok { s with out := s.out ++ [.mode_item 0 "Translate", .mode_item 1 "Reverse",
      .mode_item 2 "Swap", .mode_item 3 "KOI8", .mode_item 4 "To upper case",
      .mode_item 5 "To lower case", .mode_item 6 "Invert case"] } := by
  simp [print_modes, MODE_COUNT, List.range_succ, mode_names_at, mode_names, State.mt_printf,
    List.foldlM, bind, Except.bind, pure, Except.pure]

theorem mode_names_at_ok (i : Nat) (h : i < MODE_COUNT) : ∃ name, mode_names_at i = .ok name := by
  unfold MODE_COUNT at h
  interval_cases i <;> exact ⟨_, rfl⟩

theorem mode_functions_at_ok (i : Nat) (h : i < MODE_COUNT) :
    ∃ f, mode_functions_at i = .ok f := by
  unfold MODE_COUNT at h
  interval_cases i <;> exact ⟨_, rfl⟩

/-- The statement `in_buf[strcspn(in_buf, "\n")] = 0` cuts a line at its
newline. -/
theorem take_strcspn_nl (t r : Str) (ht : 10 ∉ t) :
    (t ++ 10 :: r).take (strcspn_nl (t ++ 10 :: r)) = t := by
  have h : (t ++ 10 :: r).takeWhile (fun c => c != 10) = t := by
    induction t with
    | nil => simp [List.takeWhile]
    | cons a t ih =>
      have ha : (a != 10) = true := by
        simp only [bne_iff_ne, ne_eq]
        intro h; exact ht (by simp [h])
      have ht2 : 10 ∉ t := fun h => ht (by simp [h])
      rw [List.cons_append, List.takeWhile_cons, ha, if_pos rfl, ih ht2]
  unfold strcspn_nl
  rw [h]
  simp

/-- C6: with `translate` configured on both stages and both workers waiting
for input, a line `t` followed by its newline goes through `main`,
`thread1` and `thread2`; the text `thread2` holds after its transform is
`t`, the text `main` sent, and the three traces show `t`. -/
theorem identity_pipeline (s : State) (t : Str) (ht : 10 ∉ t)
    (hst : s.st = .NORMAL) (h0 : s.info0.mode_fun = .translate)
    (h1 : s.info1.mode_fun = .translate) (hpc1 : s.pc1 = .receive) (hpc2 : s.pc2 = .receive) :
    ∃ s1 s', step s (.main (t ++ [10])) = some s1
      ∧ s1.info0.mailbox = t
      ∧ run s1 [.thread1, .thread1, .thread1, .thread1, .thread2, .thread2, .thread2] = some s'
      ∧ s'.in_buf2 = t
      ∧ s'.out = s.out ++ [.trace 0 t, .trace 1 t, .trace 2 t] := by
  simp [run, step, main_iter, hst, thread1, thread2, receive_data, send_data, State.mt_printf,
    hpc1, hpc2, h0, h1, mod_fun.call, translate, take_strcspn_nl t [] ht, pure, Except.pure]

/-- Witness of C6: the line "Hello" sent from the initial state. -/
theorem identity_pipeline_witness :
    ∃ s1 s', step init (.main ([72, 101, 108, 108, 111] ++ [10])) = some s1
      ∧ s1.info0.mailbox = [72, 101, 108, 108, 111]
      ∧ run s1 [.thread1, .thread1, .thread1, .thread1, .thread2, .thread2, .thread2] = some s'
      ∧ s'.in_buf2 = [72, 101, 108, 108, 111]
      ∧ s'.out = init.out ++ [.trace 0 [72, 101, 108, 108, 111],
          .trace 1 [72, 101, 108, 108, 111], .trace 2 [72, 101, 108, 108, 111]] :=
  identity_pipeline init [72, 101, 108, 108, 111] (by decide) rfl rfl rfl rfl rfl

theorem pred_u32_one : pred_u32 1 = 0 := by decide

theorem pred_u32_two : pred_u32 2 = 1 := by decide

/-- C5: a line consumed in state `CHOOSE_THREAD` (every descriptor holding
a mode of the registry) changes no descriptor; when it parses as `k` with
`1 ≤ k ≤ NUM_THREADS` the state becomes `CHANGE_MODE` with `thread_no = k`,
and for every other line the state stays `CHOOSE_THREAD`. -/
theorem choose_thread_step (s : State) (in_buf : Str) (hst : s.st = .CHOOSE_THREAD)
    (hs : s.modes_in_range) :
    ∃ s', main_iter s in_buf = .ok s'
      ∧ s'.info0 = s.info0 ∧ s'.info1 = s.info1
      ∧ (∀ k, sscanf_u in_buf = some k → 1 ≤ k → k ≤ NUM_THREADS →
          s'.st = .CHANGE_MODE ∧ s'.thread_no = k)
      ∧ ((¬ ∃ k, sscanf_u in_buf = some k ∧ 1 ≤ k ∧ k ≤ NUM_THREADS) →
          s'.st = .CHOOSE_THREAD) := by
  obtain ⟨n0, hn0⟩ := mode_names_at_ok s.info0.m hs.1
  obtain ⟨n1, hn1⟩ := mode_names_at_ok s.info1.m hs.2
  unfold main_iter
  rw [hst]
  cases hp : sscanf_u in_buf with
  | none => simp [State.mt_printf, pure, Except.pure, hst]
  | some k =>
    by_cases hk : 1 ≤ k ∧ k ≤ NUM_THREADS
    · have hk12 : k = 1 ∨ k = 2 := by unfold NUM_THREADS at hk; omega
      rcases hk12 with rfl | rfl
      · simp [NUM_THREADS, State.get_info, pred_u32_one, pred_u32_two, hn0, print_modes_ok, State.mt_printf,
          bind, Except.bind, pure, Except.pure]
      · simp [NUM_THREADS, State.get_info, pred_u32_one, pred_u32_two, hn1, print_modes_ok, State.mt_printf,
          bind, Except.bind, pure, Except.pure]
    · simp only [hk, if_false]
      refine ⟨_, rfl, rfl, rfl, ?_, ?_⟩
      · intro k' hk' h1 h2
        cases hk'
        exact absurd ⟨h1, h2⟩ hk
      · intro _
        rfl

/-- Witness of C5: the line "2" consumed in state `CHOOSE_THREAD`. -/
theorem choose_thread_step_witness :
    ∃ s', main_iter { init with st := .CHOOSE_THREAD } [50, 10] = .ok s'
      ∧ s'.info0 = init.info0 ∧ s'.info1 = init.info1
      ∧ (∀ k, sscanf_u [50, 10] = some k → 1 ≤ k → k ≤ NUM_THREADS →
          s'.st = .CHANGE_MODE ∧ s'.thread_no = k)
      ∧ ((¬ ∃ k, sscanf_u [50, 10] = some k ∧ 1 ≤ k ∧ k ≤ NUM_THREADS) →
          s'.st = .CHOOSE_THREAD) :=
  choose_thread_step { init with st := .CHOOSE_THREAD } [50, 10] rfl (by decide)

/-- A line consumed in state `CHOOSE_THREAD` that parses as a stage number
in range selects that stage and leaves both descriptors as they were. -/
theorem choose_thread_selected (s : State) (in_buf : Str) (k : Nat)
    (hst : s.st = .CHOOSE_THREAD) (hs : s.modes_in_range)
    (hp : sscanf_u in_buf = some k) (hk1 : 1 ≤ k) (hk2 : k ≤ NUM_THREADS) :
    ∃ s', main_iter s in_buf = .ok s' ∧ s'.info0 = s.info0 ∧ s'.info1 = s.info1
      ∧ s'.st = .CHANGE_MODE ∧ s'.thread_no = k := by
  obtain ⟨n0, hn0⟩ := mode_names_at_ok s.info0.m hs.1
  obtain ⟨n1, hn1⟩ := mode_names_at_ok s.info1.m hs.2
  unfold main_iter
  rw [hst, hp]
  have hk12 : k = 1 ∨ k = 2 := by unfold NUM_THREADS at hk2; omega
  rcases hk12 with rfl | rfl
  · simp [NUM_THREADS, State.get_info, pred_u32_one, hn0, print_modes_ok, State.mt_printf,
      bind, Except.bind, pure, Except.pure]
  · simp [NUM_THREADS, State.get_info, pred_u32_two, hn1, print_modes_ok, State.mt_printf,
      bind, Except.bind, pure, Except.pure]

theorem mode_functions_getElem? (m : Nat) (hm : m < MODE_COUNT) :
    ∃ f, mode_functions[m]? = some f ∧ mode_functions_at m = .ok f := by
  obtain ⟨f, hf⟩ := mode_functions_at_ok m hm
  refine ⟨f, ?_, hf⟩
  unfold mode_functions_at at hf
  split at hf
  · cases hf
    assumption
  · cases hf

/-- A line consumed in state `CHANGE_MODE` that parses as a mode of the
registry writes that mode and its function into the descriptor selected by
`thread_no` and returns to `NORMAL`. -/
theorem change_mode_valid (s : State) (in_buf : Str) (k m : Nat)
    (hst : s.st = .CHANGE_MODE) (hk : s.thread_no = k) (hk1 : 1 ≤ k) (hk2 : k ≤ NUM_THREADS)
    (hp : sscanf_u in_buf = some m) (hm : m < MODE_COUNT) :
    ∃ s' f info, main_iter s in_buf = .ok s'
      ∧ mode_functions[m]? = some f
      ∧ s.get_info (k - 1) = .ok info
      ∧ s'.get_info (k - 1) = .ok { info with m := m, mode_fun := f }
      ∧ s'.get_info (2 - k) = s.get_info (2 - k)
      ∧ s'.st = .NORMAL := by
  obtain ⟨f, hf, _⟩ := mode_functions_getElem? m hm
  have hk12 : k = 1 ∨ k = 2 := by unfold NUM_THREADS at hk2; omega
  rcases hk12 with rfl | rfl
  · have h : main_iter s in_buf = .ok
        { s with
          info0 := { s.info0 with m := m, mode_fun := f }
          st := .NORMAL
          out := s.out ++ [.type_string] } := by
      unfold main_iter
      rw [hst]
      simp [hp, hk, State.get_info, State.set_info, pred_u32_one, pred_u32_two, mode_functions_at, hf,
        State.mt_printf, bind, Except.bind, pure, Except.pure]
    exact ⟨_, f, s.info0, h, hf, rfl, rfl, rfl, rfl⟩
  · have h : main_iter s in_buf = .ok
        { s with
          info1 := { s.info1 with m := m, mode_fun := f }
          st := .NORMAL
          out := s.out ++ [.type_string] } := by
      unfold main_iter
      rw [hst]
      simp [hp, hk, State.get_info, State.set_info, pred_u32_one, pred_u32_two, mode_functions_at, hf,
        State.mt_printf, bind, Except.bind, pure, Except.pure]
    exact ⟨_, f, s.info1, h, hf, rfl, rfl, rfl, rfl⟩

/-- A worker waiting on a `FULL` mailbox receives the text and calls the
function its descriptor points to. -/
theorem stage_receive_call (s : State) (k : Nat) (hk1 : 1 ≤ k) (hk2 : k ≤ NUM_THREADS)
    (info : thread_info) (hinfo : s.get_info (k - 1) = .ok info)
    (hfull : info.mailbox_status = .FULL) (hpc : s.stage_pc k = .receive) :
    ∃ s', run s [stage_thread k, stage_thread k] = some s'
      ∧ s'.stage_in_buf k = info.mode_fun.call info.mailbox := by
  have hk12 : k = 1 ∨ k = 2 := by unfold NUM_THREADS at hk2; omega
  rcases hk12 with rfl | rfl
  · have h0 : s.info0 = info := by simpa [State.get_info] using hinfo
    have hpc1 : s.pc1 = .receive := by simpa [State.stage_pc] using hpc
    subst h0
    simp [run, step, stage_thread, thread1, hpc1, receive_data, hfull, State.stage_in_buf]
  · have h1 : s.info1 = info := by
      have := hinfo
      simp [State.get_info] at this
      exact this
    have hpc2 : s.pc2 = .receive := by simpa [State.stage_pc] using hpc
    subst h1
    simp [run, step, stage_thread, thread2, hpc2, receive_data, hfull, State.stage_in_buf]

/-- C3 fails on the code: after Ctrl+C and the line "1", the line "7" is
parsed as mode id 7, which is not below `MODE_COUNT`; the step reads
`mode_functions[7]`, outside the registry. -/
theorem change_mode_id_7_out_of_registry :
    ∃ s0 s1, sigint_handler 2 init = .ok s0 ∧ main_iter s0 [49, 10] = .ok s1
      ∧ s1.st = .CHANGE_MODE ∧ sscanf_u [55, 10] = some 7 ∧ ¬ 7 < MODE_COUNT
      ∧ main_iter s1 [55, 10] = .error (.mode_functions_index 7) :=
  ⟨_, _, rfl, rfl, rfl, rfl, by decide, rfl⟩

/-- C4 fails on the code: after Ctrl+C and the line "2", the line
"4294967295" is consumed in state `CHANGE_MODE`; the step reads
`mode_functions[4294967295]` and has no defined state after it. -/
theorem change_mode_id_max_no_next_state :
    ∃ s0 s1, sigint_handler 2 init = .ok s0 ∧ main_iter s0 [50, 10] = .ok s1
      ∧ s1.st = .CHANGE_MODE
      ∧ main_iter s1 [52, 50, 57, 52, 57, 54, 55, 50, 57, 53, 10]
          = .error (.mode_functions_index 4294967295)
      ∧ step s1 (.main [52, 50, 57, 52, 57, 54, 55, 50, 57, 53, 10]) = none :=
  ⟨_, _, rfl, rfl, rfl, rfl, rfl⟩

/-- A line consumed in state `CHANGE_MODE` that `sscanf` does not convert
changes nothing but `st`, which becomes `NORMAL`, and the output. -/
theorem change_mode_unparsed (s : State) (in_buf : Str)
    (hst : s.st = .CHANGE_MODE) (hp : sscanf_u in_buf = none) :
    main_iter s in_buf = .ok { s with st := .NORMAL, out := s.out ++ [.type_string] } := by
  unfold main_iter
  rw [hst]
  simp [hp, State.mt_printf, bind, Except.bind, pure, Except.pure]

/-! ## Frame properties of the input loop -/

theorem get_info_ok (s : State) (i : Nat) (info : thread_info) (h : s.get_info i = .ok info) :
    (i = 0 ∧ info = s.info0) ∨ (i = 1 ∧ info = s.info1) := by
  unfold State.get_info at h
  split at h
  · cases h; exact Or.inl ⟨‹_›, rfl⟩
  · split at h
    · cases h; exact Or.inr ⟨‹_›, rfl⟩
    · cases h

theorem set_info_ok (s s' : State) (i : Nat) (info : thread_info)
    (h : s.set_info i info = .ok s') :
    (i = 0 ∧ s' = { s with info0 := info }) ∨ (i = 1 ∧ s' = { s with info1 := info }) := by
  unfold State.set_info at h
  split at h
  · cases h; exact Or.inl ⟨‹_›, rfl⟩
  · split at h
    · cases h; exact Or.inr ⟨‹_›, rfl⟩
    · cases h

/-- The state after an iteration in state `CHOOSE_THREAD`, when there is
one: only `thread_no`, `st` and the output can differ. -/
theorem main_iter_choose_thread (s s' : State) (in_buf : Str) (hst : s.st = .CHOOSE_THREAD)
    (h : main_iter s in_buf = .ok s') :
    ∃ st thread_no out, s' = { s with st := st, thread_no := thread_no, out := out } := by
  unfold main_iter at h
  rw [hst] at h
  cases hp : sscanf_u in_buf with
  | none =>
    rw [hp] at h
    simp only [pure, Except.pure, Except.ok.injEq] at h
    subst h
    exact ⟨_, _, _, rfl⟩
  | some k =>
    rw [hp] at h
    simp only at h
    split at h
    · simp only [bind, Except.bind] at h
      split at h
      · cases h
      · split at h
        · cases h
        · simp only [print_modes_ok, pure, Except.pure, Except.ok.injEq] at h
          subst h
          exact ⟨_, _, _, rfl⟩
    · simp only [pure, Except.pure, Except.ok.injEq] at h
      subst h
      exact ⟨_, _, _, rfl⟩

/-- The state after an iteration in state `CHANGE_MODE`, when there is
one: the mailboxes and the locals of the workers are untouched. -/
theorem main_iter_change_mode (s s' : State) (in_buf : Str) (hst : s.st = .CHANGE_MODE)
    (h : main_iter s in_buf = .ok s') :
    ∃ f0 m0 f1 m1, s' = { s with
      info0 := { s.info0 with mode_fun := f0, m := m0 }
      info1 := { s.info1 with mode_fun := f1, m := m1 }
      st := .NORMAL
      out := s.out ++ [.type_string] } := by
  unfold main_iter at h
  rw [hst] at h
  cases hp : sscanf_u in_buf with
  | none =>
    rw [hp] at h
    simp only [bind, Except.bind, pure, Except.pure, Except.ok.injEq, State.mt_printf] at h
    subst h
    exact ⟨_, _, _, _, rfl⟩
  | some mode =>
    rw [hp] at h
    simp only [bind, Except.bind] at h
    cases hg : s.get_info (pred_u32 s.thread_no) with
    | error e => rw [hg] at h; cases h
    | ok info =>
      rw [hg] at h
      simp only at h
      cases hf : mode_functions_at mode with
      | error e =>
        rcases get_info_ok _ _ _ hg with ⟨hi, rfl⟩ | ⟨hi, rfl⟩ <;>
          simp [hi, State.set_info, State.get_info, hf] at h
      | ok f =>
        rcases get_info_ok _ _ _ hg with ⟨hi, rfl⟩ | ⟨hi, rfl⟩
        · simp [hi, State.set_info, State.get_info, hf, pure, Except.pure, State.mt_printf] at h
          subst h
          exact ⟨_, _, _, _, rfl⟩
        · simp [hi, State.set_info, State.get_info, hf, pure, Except.pure, State.mt_printf] at h
          subst h
          exact ⟨_, _, _, _, rfl⟩

/-- What an iteration of the input loop leaves untouched: the locals of the
workers and the mailbox of stage 2 always, the mailbox of stage 1 unless
the state is `NORMAL`. -/
theorem main_iter_frame (s s' : State) (in_buf : Str) (h : main_iter s in_buf = .ok s') :
    s'.pc1 = s.pc1 ∧ s'.in_buf1 = s.in_buf1 ∧ s'.pc2 = s.pc2 ∧ s'.in_buf2 = s.in_buf2
    ∧ s'.info1.mailbox = s.info1.mailbox ∧ s'.info1.mailbox_status = s.info1.mailbox_status
    ∧ (s.st ≠ .NORMAL → s'.info0.mailbox = s.info0.mailbox
        ∧ s'.info0.mailbox_status = s.info0.mailbox_status)
    ∧ (s.st = .NORMAL → s'.info0 = send_data (in_buf.take (strcspn_nl in_buf)) s.info0
        ∧ s'.info1 = s.info1 ∧ s'.st = .NORMAL
        ∧ s'.out = s.out ++ [.trace 0 (in_buf.take (strcspn_nl in_buf))]) := by
  cases hst : s.st with
  | NORMAL =>
    unfold main_iter at h
    rw [hst] at h
    simp only [pure, Except.pure, Except.ok.injEq] at h
    subst h
    simp [State.mt_printf, send_data, hst]
  | CHOOSE_THREAD =>
    obtain ⟨st, no, out, rfl⟩ := main_iter_choose_thread s s' in_buf hst h
    simp
  | CHANGE_MODE =>
    obtain ⟨f0, m0, f1, m1, rfl⟩ := main_iter_change_mode s s' in_buf hst h
    simp

/-! ## The mailbox protocol -/

theorem step_main_ok (s s' : State) (in_buf : Str) (h : step s (.main in_buf) = some s') :
    main_iter s in_buf = .ok s' := by
  have e : step s (.main in_buf)
      = (match main_iter s in_buf with | .ok s => some s | .error _ => none) := rfl
  rw [e] at h
  cases hm : main_iter s in_buf with
  | error e => rw [hm] at h; cases h
  | ok s1 => rw [hm] at h; cases h; rfl

theorem lt_NUM_THREADS (i : Nat) (hi : i < NUM_THREADS) : i = 0 ∨ i = 1 := by
  unfold NUM_THREADS at hi; omega

/-- A step that neither sends nor receives and leaves both mailboxes as
they were. -/
theorem protocol_of_unchanged (s s' : State) (a : Action)
    (hr : receives_from s a = none) (hs : sends_to s a = none)
    (hb0 : s'.info0.mailbox = s.info0.mailbox)
    (hs0 : s'.info0.mailbox_status = s.info0.mailbox_status)
    (hb1 : s'.info1.mailbox = s.info1.mailbox)
    (hs1 : s'.info1.mailbox_status = s.info1.mailbox_status) :
    (∀ i, receives_from s a = some i →
        s.status i = .FULL ∧ s'.status i = .EMPTY ∧ s'.mailbox i = s.mailbox i
        ∧ s'.stage_in_buf (i + 1) = s.mailbox i)
    ∧ (∀ i, sends_to s a = some i → s'.status i = .FULL)
    ∧ (∀ i, i < NUM_THREADS → s.status i = .EMPTY → s'.status i = .FULL →
        sends_to s a = some i)
    ∧ (∀ i, i < NUM_THREADS → s.status i = .FULL → s'.status i = .EMPTY →
        receives_from s a = some i)
    ∧ (∀ i, i < NUM_THREADS → s'.mailbox i ≠ s.mailbox i → sends_to s a = some i) := by
  refine ⟨?_, ?_, ?_, ?_, ?_⟩
  · intro i hi; rw [hr] at hi; cases hi
  · intro i hi; rw [hs] at hi; cases hi
  · intro i hi he hf
    rcases lt_NUM_THREADS i hi with rfl | rfl
    · simp only [State.status, if_true, hs0] at he hf
      rw [he] at hf; cases hf
    · simp only [State.status, one_ne_zero, if_false, hs1] at he hf
      rw [he] at hf; cases hf
  · intro i hi hf he
    rcases lt_NUM_THREADS i hi with rfl | rfl
    · simp only [State.status, if_true, hs0] at he hf
      rw [he] at hf; cases hf
    · simp only [State.status, one_ne_zero, if_false, hs1] at he hf
      rw [he] at hf; cases hf
  · intro i hi hne'
    rcases lt_NUM_THREADS i hi with rfl | rfl
    · simp only [State.mailbox, if_true, hb0, ne_eq, not_true] at hne'
    · simp only [State.mailbox, one_ne_zero, if_false, hb1, ne_eq, not_true] at hne'

/-- A step that sends to mailbox `k` and leaves the other mailbox as it
was. -/
theorem protocol_of_send (s s' : State) (a : Action) (k : Nat) (hk : k < NUM_THREADS)
    (hr : receives_from s a = none) (hs : sends_to s a = some k)
    (hfull : s'.status k = .FULL)
    (hb : s'.mailbox (1 - k) = s.mailbox (1 - k))
    (hst : s'.status (1 - k) = s.status (1 - k)) :
    (∀ i, receives_from s a = some i →
        s.status i = .FULL ∧ s'.status i = .EMPTY ∧ s'.mailbox i = s.mailbox i
        ∧ s'.stage_in_buf (i + 1) = s.mailbox i)
    ∧ (∀ i, sends_to s a = some i → s'.status i = .FULL)
    ∧ (∀ i, i < NUM_THREADS → s.status i = .EMPTY → s'.status i = .FULL →
        sends_to s a = some i)
    ∧ (∀ i, i < NUM_THREADS → s.status i = .FULL → s'.status i = .EMPTY →
        receives_from s a = some i)
    ∧ (∀ i, i < NUM_THREADS → s'.mailbox i ≠ s.mailbox i → sends_to s a = some i) := by
  refine ⟨?_, ?_, ?_, ?_, ?_⟩
  · intro i hi; rw [hr] at hi; cases hi
  · intro i hi; rw [hs] at hi; cases hi; exact hfull
  · intro i hi he hf
    rcases lt_NUM_THREADS i hi with rfl | rfl <;> rcases lt_NUM_THREADS k hk with rfl | rfl
    · exact hs
    · simp only [Nat.sub_self] at hst; rw [hst, he] at hf; cases hf
    · simp only [Nat.sub_zero] at hst; rw [hst, he] at hf; cases hf
    · exact hs
  · intro i hi hf he
    rcases lt_NUM_THREADS i hi with rfl | rfl <;> rcases lt_NUM_THREADS k hk with rfl | rfl
    · rw [hfull] at he; cases he
    · simp only [Nat.sub_self] at hst; rw [hst, hf] at he; cases he
    · simp only [Nat.sub_zero] at hst; rw [hst, hf] at he; cases he
    · rw [hfull] at he; cases he
  · intro i hi hne'
    rcases lt_NUM_THREADS i hi with rfl | rfl <;> rcases lt_NUM_THREADS k hk with rfl | rfl
    · exact hs
    · simp only [Nat.sub_self] at hb; exact absurd hb hne'
    · simp only [Nat.sub_zero] at hb; exact absurd hb hne'
    · exact hs

/-- A step that receives from mailbox `k` and leaves the other mailbox as
it was. -/
theorem protocol_of_receive (s s' : State) (a : Action) (k : Nat) (hk : k < NUM_THREADS)
    (hr : receives_from s a = some k) (hs : sends_to s a = none)
    (hfull : s.status k = .FULL) (hempty : s'.status k = .EMPTY)
    (hbk : s'.mailbox k = s.mailbox k) (hbuf : s'.stage_in_buf (k + 1) = s.mailbox k)
    (hb : s'.mailbox (1 - k) = s.mailbox (1 - k))
    (hst : s'.status (1 - k) = s.status (1 - k)) :
    (∀ i, receives_from s a = some i →
        s.status i = .FULL ∧ s'.status i = .EMPTY ∧ s'.mailbox i = s.mailbox i
        ∧ s'.stage_in_buf (i + 1) = s.mailbox i)
    ∧ (∀ i, sends_to s a = some i → s'.status i = .FULL)
    ∧ (∀ i, i < NUM_THREADS → s.status i = .EMPTY → s'.status i = .FULL →
        sends_to s a = some i)
    ∧ (∀ i, i < NUM_THREADS → s.status i = .FULL → s'.status i = .EMPTY →
        receives_from s a = some i)
    ∧ (∀ i, i < NUM_THREADS → s'.mailbox i ≠ s.mailbox i → sends_to s a = some i) := by
  refine ⟨?_, ?_, ?_, ?_, ?_⟩
  · intro i hi; rw [hr] at hi; cases hi; exact ⟨hfull, hempty, hbk, hbuf⟩
  · intro i hi; rw [hs] at hi; cases hi
  · intro i hi he hf
    rcases lt_NUM_THREADS i hi with rfl | rfl <;> rcases lt_NUM_THREADS k hk with rfl | rfl
    · rw [hfull] at he; cases he
    · simp only [Nat.sub_self] at hst; rw [hst, he] at hf; cases hf
    · simp only [Nat.sub_zero] at hst; rw [hst, he] at hf; cases hf
    · rw [hfull] at he; cases he
  · intro i hi hf he
    rcases lt_NUM_THREADS i hi with rfl | rfl <;> rcases lt_NUM_THREADS k hk with rfl | rfl
    · exact hr
    · simp only [Nat.sub_self] at hst; rw [hst, hf] at he; cases he
    · simp only [Nat.sub_zero] at hst; rw [hst, hf] at he; cases he
    · exact hr
  · intro i hi hne'
    rcases lt_NUM_THREADS i hi with rfl | rfl <;> rcases lt_NUM_THREADS k hk with rfl | rfl
    · exact absurd hbk hne'
    · simp only [Nat.sub_self] at hb; exact absurd hb hne'
    · simp only [Nat.sub_zero] at hb; exact absurd hb hne'
    · exact absurd hbk hne'

/-- C9 as stated fails: from the initial state `main` sends the line "a",
and with no worker step in between sends the line "b"; the second
`send_data` finds the mailbox of stage 1 `FULL` with "a" in it and
overwrites it with "b". -/
theorem send_overwrites_full_mailbox :
    ∃ s s', run init [.main [97, 10]] = some s
      ∧ sends_to s (.main [98, 10]) = some 0
      ∧ s.status 0 = .FULL ∧ s.mailbox 0 = [97]
      ∧ step s (.main [98, 10]) = some s'
      ∧ s'.status 0 = .FULL ∧ s'.mailbox 0 = [98] :=
  ⟨_, _, rfl, rfl, rfl, rfl, rfl, rfl, rfl⟩

/-- C9, amended: in every step of the program, `receive_data` is performed
on a mailbox only when its status is `FULL`, leaves it `EMPTY` with the
buffer untouched and hands the buffer to the worker; `send_data` leaves the
mailbox `FULL` (whatever the status was); a status goes from `EMPTY` to
`FULL` only by a `send_data` on that mailbox and from `FULL` to `EMPTY`
only by a `receive_data` on it; a buffer changes only by a `send_data`. -/
theorem mailbox_protocol (s s' : State) (a : Action) (h : step s a = some s') :
    (∀ i, receives_from s a = some i →
        s.status i = .FULL ∧ s'.status i = .EMPTY ∧ s'.mailbox i = s.mailbox i
        ∧ s'.stage_in_buf (i + 1) = s.mailbox i)
    ∧ (∀ i, sends_to s a = some i → s'.status i = .FULL)
    ∧ (∀ i, i < NUM_THREADS → s.status i = .EMPTY → s'.status i = .FULL →
        sends_to s a = some i)
    ∧ (∀ i, i < NUM_THREADS → s.status i = .FULL → s'.status i = .EMPTY →
        receives_from s a = some i)
    ∧ (∀ i, i < NUM_THREADS → s'.mailbox i ≠ s.mailbox i → sends_to s a = some i) := by
  cases a with
  | main in_buf =>
    have hm : main_iter s in_buf = .ok s' := step_main_ok s s' in_buf h
    obtain ⟨-, -, -, -, hb1, hs1, hne, heq⟩ := main_iter_frame s s' in_buf hm
    by_cases hst : s.st = .NORMAL
    · obtain ⟨h0, -, -, -⟩ := heq hst
      refine protocol_of_send s s' (.main in_buf) 0 (by decide) rfl ?_ ?_ ?_ ?_
      · simp [sends_to, hst]
      · simp [State.status, h0, send_data]
      · simpa [State.mailbox] using hb1
      · simpa [State.status] using hs1
    · obtain ⟨hb0, hs0⟩ := hne hst
      refine protocol_of_unchanged s s' (.main in_buf) rfl ?_ hb0 hs0 hb1 hs1
      simp [sends_to, hst]
  | thread1 =>
    have e : step s .thread1 = thread1 s := rfl
    rw [e] at h
    unfold thread1 at h
    cases hpc : s.pc1 <;> rw [hpc] at h <;> simp only at h
    · cases hst : s.info0.mailbox_status <;> simp only [receive_data, hst] at h
      · cases h
      · cases h
        refine protocol_of_receive s _ .thread1 0 (by decide) ?_ ?_ ?_ ?_ ?_ ?_ ?_ ?_
        · simp [receives_from, hpc]
        · simp [sends_to, hpc]
        · simp [State.status, hst]
        · simp [State.status]
        · simp [State.mailbox]
        · simp [State.mailbox, State.stage_in_buf]
        · simp [State.mailbox]
        · simp [State.status]
    · cases h
      refine protocol_of_unchanged s _ .thread1 ?_ ?_ rfl rfl rfl rfl
      · simp [receives_from, hpc]
      · simp [sends_to, hpc]
    · cases h
      refine protocol_of_unchanged s _ .thread1 ?_ ?_ rfl rfl rfl rfl
      · simp [receives_from, hpc]
      · simp [sends_to, hpc]
    · cases h
      refine protocol_of_send s _ .thread1 1 (by decide) ?_ ?_ ?_ ?_ ?_
      · simp [receives_from, hpc]
      · simp [sends_to, hpc]
      · simp [State.status, send_data]
      · simp [State.mailbox]
      · simp [State.status]
  | thread2 =>
    have e : step s .thread2 = thread2 s := rfl
    rw [e] at h
    unfold thread2 at h
    cases hpc : s.pc2 <;> rw [hpc] at h <;> simp only at h
    · cases hst : s.info1.mailbox_status <;> simp only [receive_data, hst] at h
      · cases h
      · cases h
        refine protocol_of_receive s _ .thread2 1 (by decide) ?_ ?_ ?_ ?_ ?_ ?_ ?_ ?_
        · simp [receives_from, hpc]
        · simp [sends_to]
        · simp [State.status, hst]
        · simp [State.status]
        · simp [State.mailbox]
        · simp [State.mailbox, State.stage_in_buf]
        · simp [State.mailbox]
        · simp [State.status]
    · cases h
      refine protocol_of_unchanged s _ .thread2 ?_ ?_ rfl rfl rfl rfl
      · simp [receives_from, hpc]
      · simp [sends_to]
    · cases h
      refine protocol_of_unchanged s _ .thread2 ?_ ?_ rfl rfl rfl rfl
      · simp [receives_from, hpc]
      · simp [sends_to]
    · cases h

/-- Witness of C9 (amended): `thread1` receives the line "a" that `main`
sent. -/
theorem mailbox_protocol_witness :
    ∃ s s', run init [.main [97, 10]] = some s ∧ step s .thread1 = some s'
    ∧ (∀ i, receives_from s .thread1 = some i →
        s.status i = .FULL ∧ s'.status i = .EMPTY ∧ s'.mailbox i = s.mailbox i
        ∧ s'.stage_in_buf (i + 1) = s.mailbox i)
    ∧ (∀ i, sends_to s .thread1 = some i → s'.status i = .FULL)
    ∧ (∀ i, i < NUM_THREADS → s.status i = .EMPTY → s'.status i = .FULL →
        sends_to s .thread1 = some i)
    ∧ (∀ i, i < NUM_THREADS → s.status i = .FULL → s'.status i = .EMPTY →
        receives_from s .thread1 = some i)
    ∧ (∀ i, i < NUM_THREADS → s'.mailbox i ≠ s.mailbox i → sends_to s .thread1 = some i) :=
  ⟨_, _, rfl, rfl, mailbox_protocol _ _ .thread1 rfl⟩

/-! ## Order of the lines through the pipeline -/

/-- C10 as stated fails: `main` sends "a", `thread1` drains it, `main`
sends "b" (the mailbox of stage 1 is `EMPTY` again), `thread1` forwards "a"
and then "b" before `thread2` runs; `thread2` then observes "b" only. -/
theorem second_line_overtakes_first :
    ∃ s, run init [.main [97, 10], .thread1, .main [98, 10], .thread1, .thread1, .thread1,
          .thread1, .thread1, .thread1, .thread1, .thread2, .thread2, .thread2] = some s
      ∧ main_waits init [.main [97, 10], .thread1, .main [98, 10], .thread1, .thread1,
          .thread1, .thread1, .thread1, .thread1, .thread1, .thread2, .thread2, .thread2] = true
      ∧ s.idle
      ∧ lines_sent [.main [97, 10], .thread1, .main [98, 10], .thread1, .thread1, .thread1,
          .thread1, .thread1, .thread1, .thread1, .thread2, .thread2, .thread2] = [[97], [98]]
      ∧ traces 2 s.out = [[98]] :=
  ⟨_, rfl, rfl, by decide, rfl, rfl⟩

theorem traces_append (n : Nat) (out out' : List Output) :
    traces n (out ++ out') = traces n out ++ traces n out' := by
  simp [traces, List.filterMap_append]

/-- One step of a schedule in which the sender finds its mailbox `EMPTY`,
in state `NORMAL` with `translate` on both stages: the texts traced by
`thread2` followed by the texts in flight grow by the line sent. -/
theorem in_flight_step (s s' : State) (a : Action) (h : step s a = some s')
    (hst : s.st = .NORMAL) (hf0 : s.info0.mode_fun = .translate)
    (hf1 : s.info1.mode_fun = .translate)
    (hw : ∀ i, sends_to s a = some i → s.status i = .EMPTY) :
    s'.st = .NORMAL ∧ s'.info0.mode_fun = .translate ∧ s'.info1.mode_fun = .translate
    ∧ traces 2 s'.out ++ in_flight s' = traces 2 s.out ++ in_flight s ++ lines_sent [a] := by
  cases a with
  | main in_buf =>
    have hm : main_iter s in_buf = .ok s' := step_main_ok s s' in_buf h
    obtain ⟨hp1, hb1, hp2, hb2, -, -, -, heq⟩ := main_iter_frame s s' in_buf hm
    obtain ⟨h0, h1, hst', hout⟩ := heq hst
    have he : s.info0.mailbox_status = .EMPTY := by
      have := hw 0 (by simp [sends_to, hst])
      simpa [State.status] using this
    refine ⟨hst', by rw [h0]; exact hf0, by rw [h1]; exact hf1, ?_⟩
    simp [in_flight, hp1, hb1, hp2, hb2, h0, h1, hout, he, send_data, traces_append, traces,
      lines_sent]
  | thread1 =>
    have e : step s .thread1 = thread1 s := rfl
    rw [e] at h
    unfold thread1 at h
    cases hpc : s.pc1 <;> rw [hpc] at h <;> simp only at h
    · cases hs0 : s.info0.mailbox_status <;> simp only [receive_data, hs0] at h
      · cases h
      · cases h
        refine ⟨hst, hf0, hf1, ?_⟩
        simp [in_flight, hpc, hs0, lines_sent]
    · cases h
      refine ⟨hst, hf0, hf1, ?_⟩
      simp [in_flight, hpc, lines_sent, hf0, mod_fun.call, translate]
    · cases h
      refine ⟨hst, hf0, hf1, ?_⟩
      simp [in_flight, hpc, lines_sent, State.mt_printf, traces_append, traces]
    · cases h
      have he : s.info1.mailbox_status = .EMPTY := by
        have := hw 1 (by simp [sends_to, hpc])
        simpa [State.status] using this
      refine ⟨hst, hf0, hf1, ?_⟩
      simp [in_flight, hpc, lines_sent, send_data, he]
  | thread2 =>
    have e : step s .thread2 = thread2 s := rfl
    rw [e] at h
    unfold thread2 at h
    cases hpc : s.pc2 <;> rw [hpc] at h <;> simp only at h
    · cases hs1 : s.info1.mailbox_status <;> simp only [receive_data, hs1] at h
      · cases h
      · cases h
        refine ⟨hst, hf0, hf1, ?_⟩
        simp [in_flight, hpc, hs1, lines_sent]
    · cases h
      refine ⟨hst, hf0, hf1, ?_⟩
      simp [in_flight, hpc, lines_sent, hf1, mod_fun.call, translate]
    · cases h
      refine ⟨hst, hf0, hf1, ?_⟩
      simp [in_flight, hpc, lines_sent, State.mt_printf, traces_append, traces]
    · cases h

theorem lines_sent_cons (a : Action) (acts : List Action) :
    lines_sent (a :: acts) = lines_sent [a] ++ lines_sent acts := by
  simp only [lines_sent]
  rw [← List.filterMap_append]
  rfl

/-- The invariant of `in_flight_step` along a whole schedule. -/
theorem in_flight_run (acts : List Action) (s s' : State) (h : run s acts = some s')
    (hst : s.st = .NORMAL) (hf0 : s.info0.mode_fun = .translate)
    (hf1 : s.info1.mode_fun = .translate) (hw : sends_wait s acts = true) :
    traces 2 s'.out ++ in_flight s' = traces 2 s.out ++ in_flight s ++ lines_sent acts := by
  induction acts generalizing s with
  | nil =>
    simp only [run, Option.some.injEq] at h
    subst h
    simp [lines_sent]
  | cons a rest ih =>
    simp only [run] at h
    cases hs : step s a with
    | none => rw [hs] at h; cases h
    | some s1 =>
      rw [hs] at h
      simp only at h
      simp only [sends_wait, hs, Bool.and_eq_true] at hw
      obtain ⟨hw1, hw2⟩ := hw
      have hw1' : ∀ i, sends_to s a = some i → s.status i = .EMPTY := by
        intro i hi
        rw [hi] at hw1
        simpa using hw1
      obtain ⟨hst1, hf01, hf11, heq⟩ := in_flight_step s s1 a hs hst hf0 hf1 hw1'
      rw [ih s1 h hst1 hf01 hf11 hw2, heq, lines_sent_cons a rest]
      simp only [List.append_assoc]

/-- C10, amended: in every schedule run from the initial state in which
every `send_data` finds its mailbox `EMPTY` (`main` sends a line only after
`thread1` has drained the previous one, and `thread1` forwards a line only
after `thread2` has drained the previous one), the texts `thread2` has
traced, followed by the texts still in the pipeline, are the lines sent, in
the order sent; once both workers are idle again `thread2` has traced all
of them. -/
theorem lines_in_order (acts : List Action) (s : State) (h : run init acts = some s)
    (hw : sends_wait init acts = true) :
    traces 2 s.out ++ in_flight s = lines_sent acts
    ∧ (s.idle → traces 2 s.out = lines_sent acts) := by
  have key := in_flight_run acts init s h rfl rfl rfl hw
  have hinit : traces 2 init.out ++ in_flight init = [] := by decide
  rw [hinit, List.nil_append] at key
  refine ⟨key, ?_⟩
  intro hidle
  obtain ⟨h1, h2, h3, h4⟩ := hidle
  have : in_flight s = [] := by simp [in_flight, h1, h2, h3, h4]
  rw [this, List.append_nil] at key
  exact key

/-- Witness of C10 (amended): the lines "a" and "b", each sent after the
previous one has left the mailbox it goes to. -/
theorem lines_in_order_witness :
    ∃ s, run init [.main [97, 10], .thread1, .main [98, 10], .thread1, .thread1, .thread1,
          .thread2, .thread1, .thread1, .thread1, .thread1, .thread2, .thread2, .thread2,
          .thread2, .thread2] = some s
      ∧ s.idle ∧ traces 2 s.out = [[97], [98]]
      ∧ (traces 2 s.out ++ in_flight s
          = lines_sent [.main [97, 10], .thread1, .main [98, 10], .thread1, .thread1, .thread1,
              .thread2, .thread1, .thread1, .thread1, .thread1, .thread2, .thread2, .thread2,
              .thread2, .thread2]
        ∧ (s.idle → traces 2 s.out
          = lines_sent [.main [97, 10], .thread1, .main [98, 10], .thread1, .thread1, .thread1,
              .thread2, .thread1, .thread1, .thread1, .thread1, .thread2, .thread2, .thread2,
              .thread2, .thread2])) :=
  ⟨_, rfl, by decide, rfl, lines_in_order _ _ rfl rfl⟩

/-! ## The signal handler and the `NORMAL` branch -/

/-- C11: `sigint_handler` in state `NORMAL` sets `st` to `CHOOSE_THREAD`,
prints its prompt and changes nothing else (no mailbox, no mode, no
transform); in state `CHOOSE_THREAD` or `CHANGE_MODE` it calls `exit`
instead, leaving no next state. -/
theorem sigint_handler_spec (arg : Int) (s : State) :
    sigint_handler arg { s with st := .NORMAL }
        = .ok { s with st := .CHOOSE_THREAD, out := s.out ++ [.sigint_choose_thread] }
    ∧ sigint_handler arg { s with st := .CHOOSE_THREAD } = .error arg
    ∧ sigint_handler arg { s with st := .CHANGE_MODE } = .error arg :=
  ⟨rfl, rfl, rfl⟩

theorem take_length_takeWhile (p : Nat → Bool) (l : Str) :
    l.take (l.takeWhile p).length = l.takeWhile p := by
  induction l with
  | nil => rfl
  | cons a l ih =>
    rw [List.takeWhile_cons]
    by_cases h : p a = true
    · rw [if_pos h, List.length_cons, List.take_succ_cons, ih]
    · rw [if_neg h]; rfl

/-- C12: an iteration of the input loop in state `NORMAL` puts the line,
cut before its first newline, into the mailbox of stage 1, sets that
mailbox `FULL`, traces the text, stays in `NORMAL` and changes neither the
descriptor of stage 2 nor any mode or transform. -/
theorem normal_step (s : State) (in_buf : Str) (hst : s.st = .NORMAL) :
    ∃ s', main_iter s in_buf = .ok s'
      ∧ s'.info0.mailbox = in_buf.takeWhile (fun c => c != 10)
      ∧ (∀ t r, 10 ∉ t → in_buf = t ++ 10 :: r → s'.info0.mailbox = t)
      ∧ s'.info0.mailbox_status = .FULL
      ∧ s'.st = .NORMAL
      ∧ s'.info1 = s.info1
      ∧ s'.info0.mode_fun = s.info0.mode_fun ∧ s'.info0.m = s.info0.m
      ∧ s'.out = s.out ++ [.trace 0 s'.info0.mailbox] := by
  cases s with
  | mk info0 info1 st thread_no pc1 in_buf1 pc2 in_buf2 out =>
    simp only at hst
    subst hst
    refine ⟨_, rfl, ?_, ?_, rfl, rfl, rfl, rfl, rfl, rfl⟩
    · exact take_length_takeWhile _ in_buf
    · intro t r ht he
      subst he
      simp only [send_data]
      exact take_strcspn_nl t r ht

/-- Witness of C12: the line "ab" from the initial state. -/
theorem normal_step_witness :
    ∃ s', main_iter init [97, 98, 10] = .ok s'
      ∧ s'.info0.mailbox = [97, 98, 10].takeWhile (fun c => c != 10)
      ∧ (∀ t r, 10 ∉ t → [97, 98, 10] = t ++ 10 :: r → s'.info0.mailbox = t)
      ∧ s'.info0.mailbox_status = .FULL
      ∧ s'.st = .NORMAL
      ∧ s'.info1 = init.info1
      ∧ s'.info0.mode_fun = init.info0.mode_fun ∧ s'.info0.m = init.info0.m
      ∧ s'.out = init.out ++ [.trace 0 s'.info0.mailbox] :=
  normal_step init [97, 98, 10] rfl

/-! ## Upper case and the empty line through the pipeline -/

theorem to_upper_eq_map (s : Str) : to_upper s = s.map toupper :=
  foldl_set_eq_map toupper s

theorem to_lower_eq_map (s : Str) : to_lower s = s.map tolower :=
  foldl_set_eq_map tolower s

/-- C13: with `to_upper` (the registry function of mode `TO_UPPER`) on
stage 1 and `translate` on stage 2, a line `t` gives the trace `t` for
`main` and, for `thread1` and for `thread2`, the text `t` in which every
byte in `'a'..'z'` (97..122) is lowered by 32 and every other byte is
kept. -/
theorem to_upper_pipeline (s : State) (t : Str) (ht : 10 ∉ t)
    (hst : s.st = .NORMAL) (h0 : s.info0.mode_fun = .to_upper)
    (h1 : s.info1.mode_fun = .translate) (hpc1 : s.pc1 = .receive) (hpc2 : s.pc2 = .receive) :
    mode_functions[TO_UPPER]? = some .to_upper
    ∧ ∃ s', run s [.main (t ++ [10]), .thread1, .thread1, .thread1, .thread1,
        .thread2, .thread2, .thread2] = some s'
      ∧ s'.out = s.out ++ [.trace 0 t,
          .trace 1 (t.map (fun c => if 97 ≤ c ∧ c ≤ 122 then c - 32 else c)),
          .trace 2 (t.map (fun c => if 97 ≤ c ∧ c ≤ 122 then c - 32 else c))] := by
  refine ⟨rfl, ?_⟩
  have hm : to_upper t = t.map (fun c => if 97 ≤ c ∧ c ≤ 122 then c - 32 else c) :=
    to_upper_eq_map t
  simp [run, step, main_iter, hst, thread1, thread2, receive_data, send_data, State.mt_printf,
    hpc1, hpc2, h0, h1, mod_fun.call, translate, take_strcspn_nl t [] ht, pure, Except.pure, hm]

/-- Witness of C13: after Ctrl+C and the lines "1" and "4" (stage 1, mode
`TO_UPPER`), the line "abc" is traced as "ABC" by both workers. -/
theorem to_upper_pipeline_witness :
    ∃ s0 s1 s2, sigint_handler 2 init = .ok s0 ∧ main_iter s0 [49, 10] = .ok s1
      ∧ main_iter s1 [52, 10] = .ok s2
      ∧ (mode_functions[TO_UPPER]? = some .to_upper
        ∧ ∃ s', run s2 [.main ([97, 98, 99] ++ [10]), .thread1, .thread1, .thread1, .thread1,
            .thread2, .thread2, .thread2] = some s'
          ∧ s'.out = s2.out ++ [.trace 0 [97, 98, 99],
              .trace 1 ([97, 98, 99].map (fun c => if 97 ≤ c ∧ c ≤ 122 then c - 32 else c)),
              .trace 2 ([97, 98, 99].map (fun c => if 97 ≤ c ∧ c ≤ 122 then c - 32 else c))])
      ∧ [97, 98, 99].map (fun c => if 97 ≤ c ∧ c ≤ 122 then c - 32 else c) = [65, 66, 67] :=
  ⟨_, _, _, rfl, rfl, rfl,
    to_upper_pipeline _ [97, 98, 99] (by decide) rfl rfl rfl rfl rfl, by decide⟩

theorem call_nil (f : mod_fun) : f.call [] = [] := by
  cases f <;> rfl

/-- C14: whatever functions of the registry the two stages point to (the
type `mod_fun` has exactly the seven registry functions), the empty line
goes through `main`, `thread1` and `thread2` without fault and every trace
shows the empty text. -/
theorem empty_line_pipeline (s : State) (hst : s.st = .NORMAL)
    (hpc1 : s.pc1 = .receive) (hpc2 : s.pc2 = .receive) :
    (∀ f : mod_fun, f ∈ mode_functions)
    ∧ ∃ s', run s [.main [10], .thread1, .thread1, .thread1, .thread1,
        .thread2, .thread2, .thread2] = some s'
      ∧ s'.out = s.out ++ [.trace 0 [], .trace 1 [], .trace 2 []] := by
  refine ⟨fun f => by cases f <;> decide, ?_⟩
  simp [run, step, main_iter, hst, thread1, thread2, receive_data, send_data, State.mt_printf,
    hpc1, hpc2, call_nil, strcspn_nl, pure, Except.pure]

/-- Witness of C14: stage 1 set to `reverse` and stage 2 to `koi8` before
the empty line is sent. -/
theorem empty_line_pipeline_witness :
    (∀ f : mod_fun, f ∈ mode_functions)
    ∧ ∃ s', run { init with
          info0 := { init.info0 with mode_fun := .reverse, m := REVERSE }
          info1 := { init.info1 with mode_fun := .koi8, m := KOI8 } }
        [.main [10], .thread1, .thread1, .thread1, .thread1,
          .thread2, .thread2, .thread2] = some s'
      ∧ s'.out = init.out ++ [.trace 0 [], .trace 1 [], .trace 2 []] :=
  empty_line_pipeline _ rfl rfl rfl

/-! ## `reverse` and `swap`, index by index -/

/-- C18: `reverse s` has the length of `s` and its byte at every index
`i < n` is the byte of `s` at index `n - 1 - i` (`n` the length of `s`,
odd, even or zero). -/
theorem reverse_index (s : Str) (i : Nat) (hi : i < s.length) :
    (reverse s).length = s.length
    ∧ (reverse s)[i]? = s[s.length - 1 - i]?
    ∧ (reverse s)[i]? ≠ none := by
  have hl : (reverse s).length = s.length := reverse_loop_length s.length s (s.length / 2)
  refine ⟨hl, ?_, ?_⟩
  · rw [reverse_eq_reverse, List.getElem?_reverse hi]
  · intro h
    rw [List.getElem?_eq_none_iff] at h
    omega

/-- Witness of C18: index 0 of a five-byte text. -/
theorem reverse_index_witness :
    (reverse [1, 2, 3, 4, 5]).length = [1, 2, 3, 4, 5].length
    ∧ (reverse [1, 2, 3, 4, 5])[0]? = [1, 2, 3, 4, 5][[1, 2, 3, 4, 5].length - 1 - 0]?
    ∧ (reverse [1, 2, 3, 4, 5])[0]? ≠ none :=
  reverse_index [1, 2, 3, 4, 5] 0 (by decide)

theorem swap_loop_length (s : Str) (k : Nat) :
    ((List.range k).foldl swap_body s).length = s.length := by
  induction k with
  | zero => rfl
  | succ k ih =>
    rw [List.range_succ, List.foldl_append]
    simp only [List.foldl_cons, List.foldl_nil, swap_body, List.length_set]
    exact ih

/-- The index `swap` exchanges `j` with: `j + 1` for even `j`, `j - 1` for
odd `j`. -/
theorem swap_partner_lt (j k : Nat) (h : j < 2 * k) :
    (if j % 2 = 0 then j + 1 else j - 1) < 2 * k := by
  split <;> omega

/-- Loop invariant of `swap`: after `k` iterations the first `2 * k`
positions are exchanged pairwise, the rest is untouched. -/
theorem swap_loop_getElem? (s : Str) (k : Nat) (hk : k ≤ s.length / 2) (j : Nat) :
    ((List.range k).foldl swap_body s)[j]? =
      if j < 2 * k then s[if j % 2 = 0 then j + 1 else j - 1]? else s[j]? := by
  induction k generalizing j with
  | zero => simp
  | succ k ih =>
    have ih := fun j => ih (by omega) j
    rw [List.range_succ, List.foldl_append]
    simp only [List.foldl_cons, List.foldl_nil, swap_body]
    rw [List.getElem?_set, List.getElem?_set, List.length_set, swap_loop_length,
      List.getD_eq_getElem?_getD, List.getD_eq_getElem?_getD, ih (k * 2), ih (k * 2 + 1)]
    have hlen : 2 * (k + 1) ≤ s.length := by omega
    have c1 : ¬ k * 2 < 2 * k := by omega
    have c2 : ¬ k * 2 + 1 < 2 * k := by omega
    rw [if_neg c1, if_neg c2]
    have e1 : s[k * 2]? = some (s[k * 2]) := List.getElem?_eq_getElem (by omega)
    have e2 : s[k * 2 + 1]? = some (s[k * 2 + 1]) := List.getElem?_eq_getElem (by omega)
    rw [e1, e2]
    simp only [Option.getD_some]
    by_cases h1 : k * 2 + 1 = j
    · subst h1
      have hodd : ¬ (k * 2 + 1) % 2 = 0 := by omega
      have hlt : k * 2 + 1 < s.length := by omega
      have hlt2 : k * 2 + 1 < 2 * (k + 1) := by omega
      rw [if_pos rfl, if_pos hlt, if_pos hlt2, if_neg hodd]
      simp only [Nat.add_sub_cancel]
      exact e1.symm
    · rw [if_neg h1]
      by_cases h2 : k * 2 = j
      · subst h2
        have heven : (k * 2) % 2 = 0 := by omega
        have hlt : k * 2 < s.length := by omega
        have hlt2 : k * 2 < 2 * (k + 1) := by omega
        rw [if_pos rfl, if_pos hlt, if_pos hlt2, if_pos heven]
        exact e2.symm
      · rw [if_neg h2, ih j]
        by_cases h3 : j < 2 * k
        · have h4 : j < 2 * (k + 1) := by omega
          rw [if_pos h3, if_pos h4]
        · have h4 : ¬ j < 2 * (k + 1) := by omega
          rw [if_neg h3, if_neg h4]

theorem swap_getElem? (s : Str) (j : Nat) :
    (swap s)[j]? =
      if j < 2 * (s.length / 2) then s[if j % 2 = 0 then j + 1 else j - 1]? else s[j]? :=
  swap_loop_getElem? s (s.length / 2) (Nat.le_refl _) j

theorem swap_length (s : Str) : (swap s).length = s.length :=
  swap_loop_length s (s.length / 2)

theorem swap_swap (s : Str) : swap (swap s) = s := by
  apply List.ext_getElem?
  intro j
  rw [swap_getElem?, swap_length]
  by_cases h : j < 2 * (s.length / 2)
  · rw [if_pos h, swap_getElem?, if_pos (swap_partner_lt j _ h)]
    congr 1
    by_cases hj : j % 2 = 0
    · have : ¬ (j + 1) % 2 = 0 := by omega
      rw [if_pos hj, if_neg this]
      omega
    · have : (j - 1) % 2 = 0 := by omega
      rw [if_neg hj, if_pos this]
      omega
  · rw [if_neg h, swap_getElem?, if_neg h]

/-- C20: `swap s` has the length of `s`; for every `i < n / 2` its bytes at
indices `2i` and `2i + 1` are the bytes of `s` at `2i + 1` and `2i`; when
`n` is odd its last byte is the last byte of `s`; and `swap (swap s) = s`. -/
theorem swap_spec (s : Str) :
    (swap s).length = s.length
    ∧ (∀ i, i < s.length / 2 →
        (swap s)[2 * i]? = s[2 * i + 1]? ∧ (swap s)[2 * i + 1]? = s[2 * i]?
        ∧ s[2 * i + 1]? ≠ none)
    ∧ (s.length % 2 = 1 → (swap s)[s.length - 1]? = s[s.length - 1]?)
    ∧ swap (swap s) = s := by
  refine ⟨swap_length s, ?_, ?_, swap_swap s⟩
  · intro i hi
    refine ⟨?_, ?_, ?_⟩
    · have h1 : 2 * i < 2 * (s.length / 2) := by omega
      have h2 : (2 * i) % 2 = 0 := by omega
      rw [swap_getElem?, if_pos h1, if_pos h2]
    · have h1 : 2 * i + 1 < 2 * (s.length / 2) := by omega
      have h2 : ¬ (2 * i + 1) % 2 = 0 := by omega
      rw [swap_getElem?, if_pos h1, if_neg h2]
      simp only [Nat.add_sub_cancel]
    · intro h
      rw [List.getElem?_eq_none_iff] at h
      omega
  · intro hodd
    have h1 : ¬ s.length - 1 < 2 * (s.length / 2) := by omega
    rw [swap_getElem?, if_neg h1]

/-- Witness of C20: a five-byte text; the odd last byte stays in place. -/
theorem swap_spec_witness :
    swap [1, 2, 3, 4, 5] = [2, 1, 4, 3, 5]
    ∧ ((swap [1, 2, 3, 4, 5]).length = [1, 2, 3, 4, 5].length
      ∧ (∀ i, i < [1, 2, 3, 4, 5].length / 2 →
          (swap [1, 2, 3, 4, 5])[2 * i]? = [1, 2, 3, 4, 5][2 * i + 1]?
          ∧ (swap [1, 2, 3, 4, 5])[2 * i + 1]? = [1, 2, 3, 4, 5][2 * i]?
          ∧ [1, 2, 3, 4, 5][2 * i + 1]? ≠ none)
      ∧ ([1, 2, 3, 4, 5].length % 2 = 1 →
          (swap [1, 2, 3, 4, 5])[[1, 2, 3, 4, 5].length - 1]?
            = [1, 2, 3, 4, 5][[1, 2, 3, 4, 5].length - 1]?)
      ∧ swap (swap [1, 2, 3, 4, 5]) = [1, 2, 3, 4, 5]) :=
  ⟨by decide, swap_spec [1, 2, 3, 4, 5]⟩

/-! ## The transforms keep the length and produce no NUL -/

theorem set_getD_self (l : Str) (i : Nat) : l.set i (l.getD i 0) = l := by
  apply List.ext_getElem?
  intro j
  rw [List.getElem?_set]
  by_cases h : i = j
  · subst h
    rw [if_pos rfl]
    by_cases hl : i < l.length
    · rw [if_pos hl, List.getD_eq_getElem?_getD, List.getElem?_eq_getElem hl]
      rfl
    · rw [if_neg hl, List.getElem?_eq_none (by omega)]
  · rw [if_neg h]

/-- What `invert_case` does to one byte. -/
theorem invert_case_eq_map (s : Str) :
    invert_case s
      = s.map (fun c => if isupper c then tolower c else if islower c then toupper c else c) := by
  have hb : invert_case_body = fun str i =>
      str.set i ((fun c => if isupper c then tolower c else if islower c then toupper c else c)
        (str.getD i 0)) := by
    funext str i
    unfold invert_case_body
    beta_reduce
    by_cases h1 : isupper (str.getD i 0) = true
    · rw [if_pos h1, if_pos h1]
    · rw [if_neg h1, if_neg h1]
      by_cases h2 : islower (str.getD i 0) = true
      · rw [if_pos h2, if_pos h2]
      · rw [if_neg h2, if_neg h2]
        exact (set_getD_self str i).symm
  show (List.range s.length).foldl invert_case_body s = _
  rw [hb]
  exact foldl_set_eq_map
    (fun c => if isupper c then tolower c else if islower c then toupper c else c) s

theorem koi8_byte_range (c : Nat) : 0 < (c ||| 0x80) % 256 ∧ (c ||| 0x80) % 256 < 256 := by
  refine ⟨?_, Nat.mod_lt _ (by norm_num)⟩
  have h : ((c ||| 0x80) % 2 ^ 8).testBit 7 = true := by
    rw [Nat.testBit_mod_two_pow, Nat.testBit_or]
    have : Nat.testBit 0x80 7 = true := by decide
    simp [this]
  have := Nat.testBit_implies_ge h
  have e : (c ||| 0x80) % 256 = (c ||| 0x80) % 2 ^ 8 := rfl
  rw [e]
  omega

theorem toupper_range (c : Nat) (h : 0 < c ∧ c < 256) : 0 < toupper c ∧ toupper c < 256 := by
  unfold toupper
  split <;> omega

theorem tolower_range (c : Nat) (h : 0 < c ∧ c < 256) : 0 < tolower c ∧ tolower c < 256 := by
  unfold tolower
  split <;> omega

theorem is_text_map (g : Nat → Nat) (s : Str) (hs : is_text s)
    (hg : ∀ c, 0 < c ∧ c < 256 → 0 < g c ∧ g c < 256) : is_text (s.map g) := by
  obtain ⟨hl, hb⟩ := hs
  refine ⟨by rw [List.length_map]; exact hl, ?_⟩
  intro c hc
  obtain ⟨a, ha, rfl⟩ := List.mem_map.mp hc
  exact hg a (hb a ha)

theorem swap_mem (s : Str) (c : Nat) (hc : c ∈ swap s) : c ∈ s := by
  obtain ⟨j, hj⟩ := List.mem_iff_getElem?.mp hc
  rw [swap_getElem?] at hj
  split at hj
  · exact List.getElem?_mem hj
  · exact List.getElem?_mem hj

theorem call_length (f : mod_fun) (s : Str) : (f.call s).length = s.length := by
  cases f
  · rfl
  · exact reverse_loop_length s.length s (s.length / 2)
  · exact swap_length s
  · show (koi8 s).length = s.length
    rw [koi8_eq_map, List.length_map]
  · show (to_upper s).length = s.length
    rw [to_upper_eq_map, List.length_map]
  · show (to_lower s).length = s.length
    rw [to_lower_eq_map, List.length_map]
  · show (invert_case s).length = s.length
    rw [invert_case_eq_map, List.length_map]

theorem call_is_text (f : mod_fun) (s : Str) (hs : is_text s) : is_text (f.call s) := by
  cases f
  · exact hs
  · show is_text (reverse s)
    rw [reverse_eq_reverse]
    exact ⟨by rw [List.length_reverse]; exact hs.1, fun c hc => hs.2 c (List.mem_reverse.mp hc)⟩
  · show is_text (swap s)
    exact ⟨by rw [swap_length]; exact hs.1, fun c hc => hs.2 c (swap_mem s c hc)⟩
  · show is_text (koi8 s)
    rw [koi8_eq_map]
    exact is_text_map _ s hs (fun c _ => koi8_byte_range c)
  · show is_text (to_upper s)
    rw [to_upper_eq_map]
    exact is_text_map _ s hs toupper_range
  · show is_text (to_lower s)
    rw [to_lower_eq_map]
    exact is_text_map _ s hs tolower_range
  · show is_text (invert_case s)
    rw [invert_case_eq_map]
    apply is_text_map _ s hs
    intro c hc
    by_cases h1 : isupper c = true
    · simp only [h1, if_true]; exact tolower_range c hc
    · by_cases h2 : islower c = true
      · simp only [h1, h2, if_true, if_false]; exact toupper_range c hc
      · simp only [h1, h2, if_false]; exact hc

/-- C19: a text (bytes 1..255, shorter than `IN_BUF_SIZE`) keeps its length
under each of the seven functions and the result has no NUL byte; after
any sequence of the functions the result still has the length of `s` and
is still a text that fits the buffer. -/
theorem transforms_keep_text (s : Str) (hs : is_text s) :
    (∀ f : mod_fun, f ∈ mode_functions)
    ∧ (∀ f : mod_fun, (f.call s).length = s.length ∧ ∀ c ∈ f.call s, c ≠ 0)
    ∧ (∀ fs : List mod_fun, (fs.foldl (fun t f => f.call t) s).length = s.length
        ∧ is_text (fs.foldl (fun t f => f.call t) s)) := by
  refine ⟨fun f => by cases f <;> decide, ?_, ?_⟩
  · intro f
    refine ⟨call_length f s, ?_⟩
    intro c hc h0
    have := (call_is_text f s hs).2 c hc
    omega
  · intro fs
    induction fs generalizing s with
    | nil => exact ⟨rfl, hs⟩
    | cons f fs ih =>
      simp only [List.foldl_cons]
      obtain ⟨h1, h2⟩ := ih (f.call s) (call_is_text f s hs)
      exact ⟨by rw [h1, call_length], h2⟩

/-- Witness of C19: the text "aB1" under every function and under the
sequence `koi8`, `swap`, `reverse`. -/
theorem transforms_keep_text_witness :
    [KOI8, SWAP, REVERSE].map (fun m => mode_functions[m]?)
      = [some .koi8, some .swap, some .reverse]
    ∧ ((∀ f : mod_fun, f ∈ mode_functions)
      ∧ (∀ f : mod_fun, (f.call [97, 66, 49]).length = [97, 66, 49].length
          ∧ ∀ c ∈ f.call [97, 66, 49], c ≠ 0)
      ∧ (∀ fs : List mod_fun,
          (fs.foldl (fun t f => f.call t) [97, 66, 49]).length = [97, 66, 49].length
          ∧ is_text (fs.foldl (fun t f => f.call t) [97, 66, 49]))) :=
  ⟨rfl, transforms_keep_text [97, 66, 49] (by decide)⟩

/-! ## Start-up order -/

/-- C15 as stated fails: among the states of the initialisation loop there
is one in which the worker of stage 1 (`thread_funs[0]`) is started while
the descriptor `thread_infos[1]` is still as static storage left it, its
`mode_fun` null: `pthread_create` is inside the loop that initialises the
descriptors. -/
theorem worker_started_before_all_descriptors :
    boot_states[2]? = some
        { thread_infos := [boot_info_ready, boot_info_zero], started := [0] }
    ∧ boot_info_zero.mode_fun = none
    ∧ ¬ (∀ b ∈ boot_states, b.started ≠ [] →
          ∀ info ∈ b.thread_infos, info = boot_info_ready) := by
  decide

/-- C15, amended: in every state of the initialisation loop each started
worker has its own descriptor initialised (`EMPTY`, `translate`,
`TRANSLATE`); when the loop ends both descriptors are initialised and both
workers started, which is the state `init`, whose `st` is `NORMAL`;
`translate` is the registry function of `TRANSLATE` and the identity. -/
theorem boot_order :
    (∀ b ∈ boot_states, ∀ i ∈ b.started, b.thread_infos[i]? = some boot_info_ready)
    ∧ boot_states.getLast? = some
        { thread_infos := [boot_info_ready, boot_info_ready], started := [0, 1] }
    ∧ boot_info_ready
        = { mailbox_status := .EMPTY, mode_fun := some .translate, m := TRANSLATE }
    ∧ [init.info0, init.info1].map
          (fun info => (info.mailbox_status, some info.mode_fun, info.m))
        = [boot_info_ready, boot_info_ready].map
          (fun info => (info.mailbox_status, info.mode_fun, info.m))
    ∧ init.st = .NORMAL
    ∧ mode_functions[TRANSLATE]? = some .translate
    ∧ (∀ t : Str, mod_fun.translate.call t = t) := by
  refine ⟨by decide, by decide, rfl, by decide, rfl, rfl, fun _ => rfl⟩

/-! ## The two stores of a reconfiguration -/

/-- The `CHANGE_MODE` branch on a line that `sscanf` converts is the store
of `m`, then the store of `mode_fun`, then `st = NORMAL`. -/
theorem change_mode_eq_stores (s : State) (in_buf : Str) (mode : Nat)
    (hst : s.st = .CHANGE_MODE) (hp : sscanf_u in_buf = some mode) :
    main_iter s in_buf = (do
      let s1 ← store_m s mode
      let s2 ← store_mode_fun s1 mode
      pure (change_mode_end s2)) := by
  unfold main_iter
  rw [hst]
  simp only [hp, store_m, store_mode_fun, change_mode_end, bind, Except.bind, pure, Except.pure]
  cases s.get_info (pred_u32 s.thread_no) with
  | error e => rfl
  | ok info =>
    simp only
    cases h1 : s.set_info (pred_u32 s.thread_no) { info with m := mode } with
    | error e => rfl
    | ok s1 =>
      simp only
      cases mode_functions_at mode with
      | error e => rfl
      | ok f =>
        simp only
        cases s1.get_info (pred_u32 s1.thread_no) with
        | error e => rfl
        | ok info2 => rfl

/-- C16, amended: a reconfiguration of stage `k` to a mode `mode` of the
registry is two stores, `m` first and `mode_fun` second.  Between them the
descriptor holds the new `m` with the previous `mode_fun`, and a worker of
stage `k` that calls its function there applies the previous function;
after the second store the descriptor holds `mode` and the registry
function of `mode`. -/
theorem change_mode_stores (s : State) (in_buf : Str) (k mode : Nat)
    (hst : s.st = .CHANGE_MODE) (hk : s.thread_no = k) (hk1 : 1 ≤ k) (hk2 : k ≤ NUM_THREADS)
    (hp : sscanf_u in_buf = some mode) (hm : mode < MODE_COUNT) :
    ∃ s1 s2 info f, s.get_info (k - 1) = .ok info ∧ mode_functions[mode]? = some f
      ∧ store_m s mode = .ok s1
      ∧ s1.get_info (k - 1) = .ok { info with m := mode }
      ∧ (∀ s1', s1.stage_pc k = .call → step s1 (stage_thread k) = some s1' →
          s1'.stage_in_buf k = info.mode_fun.call (s1.stage_in_buf k))
      ∧ store_mode_fun s1 mode = .ok s2
      ∧ s2.get_info (k - 1) = .ok { info with m := mode, mode_fun := f }
      ∧ main_iter s in_buf = .ok (change_mode_end s2) := by
  obtain ⟨f, hf, hfa⟩ := mode_functions_getElem? mode hm
  have hmain := change_mode_eq_stores s in_buf mode hst hp
  rcases lt_NUM_THREADS (k - 1) (by unfold NUM_THREADS at *; omega) with h0 | h1
  · have hk' : k = 1 := by omega
    subst hk'
    have e1 : store_m s mode = .ok { s with info0 := { s.info0 with m := mode } } := by
      simp [store_m, hk, pred_u32_one, State.get_info, State.set_info, bind, Except.bind]
    have e2 : store_mode_fun { s with info0 := { s.info0 with m := mode } } mode
        = .ok { s with info0 := { s.info0 with m := mode, mode_fun := f } } := by
      simp [store_mode_fun, hk, pred_u32_one, State.get_info, State.set_info, bind,
        Except.bind, hfa]
    refine ⟨_, _, s.info0, f, rfl, hf, e1, rfl, ?_, e2, rfl, ?_⟩
    · intro s1' hpc hstep
      have hpc1 : s.pc1 = .call := by simpa [State.stage_pc] using hpc
      have e : step { s with info0 := { s.info0 with m := mode } } (stage_thread 1)
          = thread1 { s with info0 := { s.info0 with m := mode } } := rfl
      rw [e] at hstep
      simp only [thread1, hpc1, Option.some.injEq] at hstep
      subst hstep
      simp [State.stage_in_buf]
    · rw [hmain, e1]
      simp only [bind, Except.bind, e2, pure, Except.pure]
  · have hk' : k = 2 := by omega
    subst hk'
    have e1 : store_m s mode = .ok { s with info1 := { s.info1 with m := mode } } := by
      simp [store_m, hk, pred_u32_two, State.get_info, State.set_info, bind, Except.bind]
    have e2 : store_mode_fun { s with info1 := { s.info1 with m := mode } } mode
        = .ok { s with info1 := { s.info1 with m := mode, mode_fun := f } } := by
      simp [store_mode_fun, hk, pred_u32_two, State.get_info, State.set_info, bind,
        Except.bind, hfa]
    refine ⟨_, _, s.info1, f, rfl, hf, e1, rfl, ?_, e2, rfl, ?_⟩
    · intro s1' hpc hstep
      have hpc2 : s.pc2 = .call := by simpa [State.stage_pc] using hpc
      have e : step { s with info1 := { s.info1 with m := mode } } (stage_thread 2)
          = thread2 { s with info1 := { s.info1 with m := mode } } := rfl
      rw [e] at hstep
      simp only [thread2, hpc2, Option.some.injEq] at hstep
      subst hstep
      simp [State.stage_in_buf]
    · rw [hmain, e1]
      simp only [bind, Except.bind, e2, pure, Except.pure]

/-- Witness of C16 (amended): stage 2 is reconfigured to mode 3 (`koi8`)
from a state reached by Ctrl+C and the line "2". -/
theorem change_mode_stores_witness :
    ∃ s0 s, sigint_handler 2 init = .ok s0 ∧ main_iter s0 [50, 10] = .ok s
      ∧ ∃ s1 s2 info f, s.get_info (2 - 1) = .ok info ∧ mode_functions[3]? = some f
        ∧ store_m s 3 = .ok s1
        ∧ s1.get_info (2 - 1) = .ok { info with m := 3 }
        ∧ (∀ s1', s1.stage_pc 2 = .call → step s1 (stage_thread 2) = some s1' →
            s1'.stage_in_buf 2 = info.mode_fun.call (s1.stage_in_buf 2))
        ∧ store_mode_fun s1 3 = .ok s2
        ∧ s2.get_info (2 - 1) = .ok { info with m := 3, mode_fun := f }
        ∧ main_iter s [51, 10] = .ok (change_mode_end s2) :=
  ⟨_, _, rfl, rfl, change_mode_stores _ [51, 10] 2 3 rfl rfl (by decide) (by decide) rfl
    (by decide)⟩

/-- C16 as stated fails: `thread1` holds the line "ab" and is about to
call its function when Ctrl+C, the line "1" (stage 1) and the line "1"
(mode `REVERSE`) arrive.  After the store of `m` the descriptor of stage 1
holds mode `REVERSE` with the function `translate`, a pair of which one
field is updated; `thread1` runs there and applies `translate`; only then
the store of `mode_fun` makes the pair whole. -/
theorem worker_runs_between_stores :
    ∃ sa sb sc s1 s1' s2,
      run init [.main [97, 98, 10], .thread1] = some sa
      ∧ sigint_handler 2 sa = .ok sb ∧ main_iter sb [49, 10] = .ok sc
      ∧ sc.st = .CHANGE_MODE ∧ sscanf_u [49, 10] = some REVERSE
      ∧ store_m sc REVERSE = .ok s1
      ∧ s1.info0.m = REVERSE ∧ s1.info0.mode_fun = .translate ∧ ¬ s1.info0.consistent
      ∧ step s1 .thread1 = some s1' ∧ s1'.in_buf1 = [97, 98] ∧ s1'.pc1 = .print
      ∧ store_mode_fun s1' REVERSE = .ok s2
      ∧ s2.info0.m = REVERSE ∧ s2.info0.mode_fun = .reverse ∧ s2.info0.consistent
      ∧ mod_fun.reverse.call [97, 98] = [98, 97] :=
  ⟨_, _, _, _, _, _, rfl, rfl, rfl, rfl, rfl, rfl, rfl, rfl, by decide, rfl, rfl, rfl, rfl,
    rfl, rfl, by decide, rfl⟩

/-! ## Modes and the registry -/

/-- C17 fails on the code: after Ctrl+C and the line "1", the line "7" is
converted to the id 7; the store of `m` succeeds and leaves stage 1 with
mode 7, which is not below `MODE_COUNT`, and the following read of
`mode_functions[7]` is outside the registry. -/
theorem mode_7_is_stored :
    ∃ s0 s1 s2, dispatch_run init [.sigint, .line [49, 10]] = some s1
      ∧ sigint_handler 2 init = .ok s0 ∧ main_iter s0 [49, 10] = .ok s1
      ∧ s1.st = .CHANGE_MODE ∧ sscanf_u [55, 10] = some 7
      ∧ store_m s1 7 = .ok s2
      ∧ s2.info0.m = 7 ∧ ¬ s2.info0.m < MODE_COUNT ∧ ¬ s2.info0.consistent
      ∧ store_mode_fun s2 7 = .error (.mode_functions_index 7)
      ∧ main_iter s1 [55, 10] = .error (.mode_functions_index 7) :=
  ⟨_, _, _, rfl, rfl, rfl, rfl, rfl, rfl, rfl, by decide, by decide, rfl, rfl⟩

theorem consistent_lt (info : thread_info) (h : info.consistent) : info.m < MODE_COUNT := by
  unfold thread_info.consistent at h
  have hl : info.m < mode_functions.length := by
    by_contra hc
    rw [List.getElem?_eq_none (by omega)] at h
    cases h
  exact hl

/-- An iteration of the input loop that completes keeps every descriptor
consistent with the registry. -/
theorem main_iter_consistent (s s' : State) (in_buf : Str) (h : main_iter s in_buf = .ok s')
    (h0 : s.info0.consistent) (h1 : s.info1.consistent) :
    s'.info0.consistent ∧ s'.info1.consistent := by
  cases hst : s.st with
  | NORMAL =>
    obtain ⟨-, -, -, -, -, -, -, heq⟩ := main_iter_frame s s' in_buf h
    obtain ⟨e0, e1, -, -⟩ := heq hst
    rw [e0, e1]
    exact ⟨h0, h1⟩
  | CHOOSE_THREAD =>
    obtain ⟨st, no, out, rfl⟩ := main_iter_choose_thread s s' in_buf hst h
    exact ⟨h0, h1⟩
  | CHANGE_MODE =>
    cases hp : sscanf_u in_buf with
    | none =>
      rw [change_mode_unparsed s in_buf hst hp] at h
      cases h
      exact ⟨h0, h1⟩
    | some mode =>
      rw [change_mode_eq_stores s in_buf mode hst hp] at h
      simp only [store_m, store_mode_fun, bind, Except.bind] at h
      cases hg : s.get_info (pred_u32 s.thread_no) with
      | error e => rw [hg] at h; cases h
      | ok info =>
        rw [hg] at h
        cases hf : mode_functions_at mode with
        | error e =>
          rcases get_info_ok _ _ _ hg with ⟨hi, rfl⟩ | ⟨hi, rfl⟩ <;>
            simp [hi, State.set_info, State.get_info, hf] at h
        | ok f =>
          have hfm : mode_functions[mode]? = some f := by
            unfold mode_functions_at at hf
            split at hf
            · cases hf; assumption
            · cases hf
          rcases get_info_ok _ _ _ hg with ⟨hi, rfl⟩ | ⟨hi, rfl⟩
          · simp [hi, State.set_info, State.get_info, hf, pure, Except.pure, change_mode_end,
              State.mt_printf] at h
            subst h
            exact ⟨hfm, h1⟩
          · simp [hi, State.set_info, State.get_info, hf, pure, Except.pure, change_mode_end,
              State.mt_printf] at h
            subst h
            exact ⟨h0, hfm⟩

/-- In every state the input loop reaches from `init` through iterations
that complete and signals that do not exit, every descriptor holds a mode
below `MODE_COUNT` and the registry function of that mode. -/
theorem dispatch_run_consistent (inputs : List Input) (s s' : State)
    (h : dispatch_run s inputs = some s')
    (h0 : s.info0.consistent) (h1 : s.info1.consistent) :
    s'.info0.consistent ∧ s'.info1.consistent
      ∧ s'.info0.m < MODE_COUNT ∧ s'.info1.m < MODE_COUNT := by
  induction inputs generalizing s with
  | nil =>
    simp only [dispatch_run, Option.some.injEq] at h
    subst h
    exact ⟨h0, h1, consistent_lt _ h0, consistent_lt _ h1⟩
  | cons i rest ih =>
    simp only [dispatch_run] at h
    cases hd : dispatch s i with
    | none => rw [hd] at h; cases h
    | some s1 =>
      rw [hd] at h
      simp only at h
      cases i with
      | line in_buf =>
        have hm : main_iter s in_buf = .ok s1 := by
          have e : dispatch s (.line in_buf)
              = (match main_iter s in_buf with | .ok s => some s | .error _ => none) := rfl
          rw [e] at hd
          cases hmi : main_iter s in_buf with
          | error e => rw [hmi] at hd; cases hd
          | ok s2 => rw [hmi] at hd; cases hd; rfl
        obtain ⟨c0, c1⟩ := main_iter_consistent s s1 in_buf hm h0 h1
        exact ih s1 h c0 c1
      | sigint =>
        have hs : s1.info0 = s.info0 ∧ s1.info1 = s.info1 := by
          have e : dispatch s .sigint
              = (match sigint_handler 2 s with | .ok s => some s | .error _ => none) := rfl
          rw [e] at hd
          unfold sigint_handler at hd
          by_cases hn : s.st ≠ .NORMAL
          · rw [if_pos hn] at hd; cases hd
          · rw [if_neg hn] at hd; cases hd; exact ⟨rfl, rfl⟩
        rw [← hs.1] at h0
        rw [← hs.2] at h1
        exact ih s1 h h0 h1

/-! ## Reconfiguration of a stage -/

/-- The `NORMAL` branch always completes. -/
theorem main_iter_normal (s : State) (in_buf : Str) (hst : s.st = .NORMAL) :
    main_iter s in_buf = .ok { s with
      info0 := send_data (in_buf.take (strcspn_nl in_buf)) s.info0
      out := s.out ++ [.trace 0 (in_buf.take (strcspn_nl in_buf))] } := by
  cases s with
  | mk info0 info1 st thread_no pc1 in_buf1 pc2 in_buf2 out =>
    simp only at hst
    subst hst
    rfl

/-- A step taken in state `NORMAL` leaves `st` and the mode and function of
both descriptors as they were. -/
theorem step_keeps_modes (s s' : State) (a : Action) (hst : s.st = .NORMAL)
    (h : step s a = some s') :
    s'.st = .NORMAL
    ∧ s'.info0.mode_fun = s.info0.mode_fun ∧ s'.info0.m = s.info0.m
    ∧ s'.info1.mode_fun = s.info1.mode_fun ∧ s'.info1.m = s.info1.m := by
  cases a with
  | main in_buf =>
    have hm := step_main_ok s s' in_buf h
    rw [main_iter_normal s in_buf hst] at hm
    cases hm
    exact ⟨hst, rfl, rfl, rfl, rfl⟩
  | thread1 =>
    have e : step s .thread1 = thread1 s := rfl
    rw [e] at h
    unfold thread1 at h
    cases hpc : s.pc1 <;> rw [hpc] at h <;> simp only at h
    · cases hs0 : s.info0.mailbox_status <;> simp only [receive_data, hs0] at h
      · cases h
      · cases h; exact ⟨hst, rfl, rfl, rfl, rfl⟩
    · cases h; exact ⟨hst, rfl, rfl, rfl, rfl⟩
    · cases h; exact ⟨hst, rfl, rfl, rfl, rfl⟩
    · cases h; exact ⟨hst, rfl, rfl, rfl, rfl⟩
  | thread2 =>
    have e : step s .thread2 = thread2 s := rfl
    rw [e] at h
    unfold thread2 at h
    cases hpc : s.pc2 <;> rw [hpc] at h <;> simp only at h
    · cases hs1 : s.info1.mailbox_status <;> simp only [receive_data, hs1] at h
      · cases h
      · cases h; exact ⟨hst, rfl, rfl, rfl, rfl⟩
    · cases h; exact ⟨hst, rfl, rfl, rfl, rfl⟩
    · cases h; exact ⟨hst, rfl, rfl, rfl, rfl⟩
    · cases h

/-- Along every schedule run from a state in `NORMAL` the mode and function
of both descriptors stay as they were. -/
theorem run_keeps_modes (acts : List Action) (s s' : State) (hst : s.st = .NORMAL)
    (h : run s acts = some s') :
    s'.st = .NORMAL
    ∧ s'.info0.mode_fun = s.info0.mode_fun ∧ s'.info0.m = s.info0.m
    ∧ s'.info1.mode_fun = s.info1.mode_fun ∧ s'.info1.m = s.info1.m := by
  induction acts generalizing s with
  | nil =>
    simp only [run, Option.some.injEq] at h
    subst h
    exact ⟨hst, rfl, rfl, rfl, rfl⟩
  | cons a rest ih =>
    simp only [run] at h
    cases hs : step s a with
    | none => rw [hs] at h; cases h
    | some s1 =>
      rw [hs] at h
      simp only at h
      obtain ⟨hst1, a0, a1, a2, a3⟩ := step_keeps_modes s s1 a hst hs
      obtain ⟨hst', b0, b1, b2, b3⟩ := ih s1 hst1 h
      exact ⟨hst', by rw [b0, a0], by rw [b1, a1], by rw [b2, a2], by rw [b3, a3]⟩

/-- The statement `info->mode_fun(in_buf)` of the worker of stage `k`
applies the function its descriptor points to. -/
theorem stage_call (s s' : State) (k : Nat) (hk1 : 1 ≤ k) (hk2 : k ≤ NUM_THREADS)
    (info : thread_info) (hinfo : s.get_info (k - 1) = .ok info)
    (hpc : s.stage_pc k = .call) (h : step s (stage_thread k) = some s') :
    s'.stage_in_buf k = info.mode_fun.call (s.stage_in_buf k) := by
  have hk12 : k = 1 ∨ k = 2 := by unfold NUM_THREADS at hk2; omega
  rcases hk12 with rfl | rfl
  · have h0 : s.info0 = info := by simpa [State.get_info] using hinfo
    have hpc1 : s.pc1 = .call := by simpa [State.stage_pc] using hpc
    have e : step s (stage_thread 1) = thread1 s := rfl
    rw [e] at h
    simp only [thread1, hpc1, Option.some.injEq] at h
    subst h
    subst h0
    simp [State.stage_in_buf]
  · have h1 : s.info1 = info := by
      have := hinfo
      simp [State.get_info] at this
      exact this
    have hpc2 : s.pc2 = .call := by simpa [State.stage_pc] using hpc
    have e : step s (stage_thread 2) = thread2 s := rfl
    rw [e] at h
    simp only [thread2, hpc2, Option.some.injEq] at h
    subst h
    subst h1
    simp [State.stage_in_buf]

/-- From a state in `NORMAL` with both workers waiting, a line sent by
`main` reaches the worker of stage `k`, which then applies the function of
its descriptor: stage 1 receives the line cut at its newline, stage 2
receives what the function of stage 1 made of it. -/
theorem next_line_reaches_stage (s : State) (k : Nat) (hk1 : 1 ≤ k) (hk2 : k ≤ NUM_THREADS)
    (hst : s.st = .NORMAL) (hpc1 : s.pc1 = .receive) (hpc2 : s.pc2 = .receive)
    (in_buf : Str) :
    ∃ s3 s4, run s (.main in_buf :: carry_to k) = some s3
      ∧ s3.stage_pc k = .call
      ∧ s3.stage_in_buf k = (if k = 1 then in_buf.take (strcspn_nl in_buf)
          else s.info0.mode_fun.call (in_buf.take (strcspn_nl in_buf)))
      ∧ step s3 (stage_thread k) = some s4
      ∧ s4.stage_in_buf k
          = (if k = 1 then s.info0.mode_fun else s.info1.mode_fun).call (s3.stage_in_buf k) := by
  have hk12 : k = 1 ∨ k = 2 := by unfold NUM_THREADS at hk2; omega
  rcases hk12 with rfl | rfl
  · simp [run, step, carry_to, stage_thread, main_iter_normal s in_buf hst, thread1, hpc1,
      receive_data, send_data, State.stage_pc, State.stage_in_buf]
  · simp [run, step, carry_to, stage_thread, main_iter_normal s in_buf hst, thread1, thread2,
      hpc1, hpc2, receive_data, send_data, State.stage_pc, State.stage_in_buf, State.mt_printf]

/-- C2: from state `CHOOSE_THREAD` (every descriptor holding a mode of the
registry), the line selecting stage `k` followed by the line selecting mode
`m` leaves the descriptor of stage `k` with mode `m` and the registry
function `f` of `m` and leaves the other descriptor as it was.  Along every
schedule run from the state after the reconfiguration the descriptor of
stage `k` keeps mode `m` and function `f`, and every call of its worker
applies `f`.  In particular, with both workers waiting, the next line
`main` sends reaches the worker of stage `k` (stage 1 receives the line cut
at its newline, stage 2 what the function of stage 1 made of it) and is
turned into `f` applied to it. -/
theorem reconfigure_stage (s : State) (k m : Nat) (l1 l2 : Str)
    (hk1 : 1 ≤ k) (hk2 : k ≤ NUM_THREADS) (hm : m < MODE_COUNT)
    (hst : s.st = .CHOOSE_THREAD) (hs : s.modes_in_range)
    (hl1 : sscanf_u l1 = some k) (hl2 : sscanf_u l2 = some m) :
    ∃ s1 s2 f info, main_iter s l1 = .ok s1 ∧ main_iter s1 l2 = .ok s2
      ∧ mode_functions[m]? = some f
      ∧ s.get_info (k - 1) = .ok info
      ∧ s2.get_info (k - 1) = .ok { info with m := m, mode_fun := f }
      ∧ s2.get_info (2 - k) = s.get_info (2 - k)
      ∧ (∀ acts s3, run s2 acts = some s3 →
          ∃ info3, s3.get_info (k - 1) = .ok info3 ∧ info3.m = m ∧ info3.mode_fun = f
            ∧ ∀ s4, s3.stage_pc k = .call → step s3 (stage_thread k) = some s4 →
                s4.stage_in_buf k = f.call (s3.stage_in_buf k))
      ∧ (s.pc1 = .receive → s.pc2 = .receive → ∀ l3,
          ∃ s3 s4, run s2 (.main l3 :: carry_to k) = some s3
            ∧ s3.stage_pc k = .call
            ∧ s3.stage_in_buf k = (if k = 1 then l3.take (strcspn_nl l3)
                else s.info0.mode_fun.call (l3.take (strcspn_nl l3)))
            ∧ step s3 (stage_thread k) = some s4
            ∧ s4.stage_in_buf k = f.call (s3.stage_in_buf k)) := by
  obtain ⟨s1, h1, hi0, hi1, hst1, hno1⟩ := choose_thread_selected s l1 k hst hs hl1 hk1 hk2
  obtain ⟨s2, f, info, h2, hf, hinfo, hinfo2, hother, hst2⟩ :=
    change_mode_valid s1 l2 k m hst1 hno1 hk1 hk2 hl2 hm
  have hget : ∀ i, s1.get_info i = s.get_info i := by
    intro i
    simp [State.get_info, hi0, hi1]
  obtain ⟨p1, -, p2, -, -, -, -, -⟩ := main_iter_frame s s1 l1 h1
  obtain ⟨q1, -, q2, -, -, -, -, -⟩ := main_iter_frame s1 s2 l2 h2
  have hk12 : k = 1 ∨ k = 2 := by unfold NUM_THREADS at hk2; omega
  have hfun : (if k = 1 then s2.info0.mode_fun else s2.info1.mode_fun) = f
      ∧ (if k = 1 then s2.info0.m else s2.info1.m) = m
      ∧ (k = 2 → s2.info0.mode_fun = s.info0.mode_fun) := by
    rcases hk12 with rfl | rfl
    · have e : s2.info0 = { info with m := m, mode_fun := f } := by
        simpa [State.get_info] using hinfo2
      simp [e]
    · have e : s2.info1 = { info with m := m, mode_fun := f } := by
        have := hinfo2
        simp [State.get_info] at this
        exact this
      have e0 : s2.info0 = s.info0 := by
        have := hother
        rw [hget] at this
        simpa [State.get_info] using this
      simp [e, e0]
  obtain ⟨hfk, hmk, hf0⟩ := hfun
  refine ⟨s1, s2, f, info, h1, h2, hf, ?_, hinfo2, ?_, ?_, ?_⟩
  · rw [← hget]; exact hinfo
  · rw [← hget]; exact hother
  · intro acts s3 hrun
    obtain ⟨-, a0, a1, a2, a3⟩ := run_keeps_modes acts s2 s3 hst2 hrun
    rcases hk12 with rfl | rfl
    · simp only [if_true] at hfk hmk
      refine ⟨s3.info0, rfl, by rw [a1, hmk], by rw [a0, hfk], ?_⟩
      intro s4 hpc hstep
      rw [stage_call s3 s4 1 hk1 hk2 s3.info0 rfl hpc hstep, a0, hfk]
    · simp only [OfNat.ofNat_ne_one, if_false] at hfk hmk
      refine ⟨s3.info1, rfl, by rw [a3, hmk], by rw [a2, hfk], ?_⟩
      intro s4 hpc hstep
      rw [stage_call s3 s4 2 hk1 hk2 s3.info1 rfl hpc hstep, a2, hfk]
  · intro hpc1 hpc2 l3
    obtain ⟨s3, s4, hrun, hpc, hrecv, hstep, hbuf⟩ :=
      next_line_reaches_stage s2 k hk1 hk2 hst2 (by rw [q1, p1, hpc1]) (by rw [q2, p2, hpc2]) l3
    refine ⟨s3, s4, hrun, hpc, ?_, hstep, ?_⟩
    · rw [hrecv]
      rcases hk12 with rfl | rfl
      · simp
      · simp [hf0 rfl]
    · rw [hbuf, hfk]

/-- Witness of C2: stage 2 is set to mode 1 (`reverse`) by the lines "2"
and "1"; the next line, "ab", reaches `thread2` unchanged (stage 1 is at
`translate`) and `thread2` turns it into "ba". -/
theorem reconfigure_stage_witness :
    ∃ s1 s2 s3 s4, main_iter { init with st := .CHOOSE_THREAD } [50, 10] = .ok s1
      ∧ main_iter s1 [49, 10] = .ok s2
      ∧ s2.get_info (2 - 1) = .ok { init.info1 with m := 1, mode_fun := .reverse }
      ∧ s2.get_info (2 - 2) = .ok init.info0
      ∧ run s2 (.main [97, 98, 10] :: carry_to 2) = some s3
      ∧ s3.stage_in_buf 2 = [97, 98]
      ∧ step s3 (stage_thread 2) = some s4
      ∧ s4.stage_in_buf 2 = [98, 97] := by
  obtain ⟨s1, s2, f, info, h1, h2, hf, hinfo, hinfo2, hother, -, hnext⟩ :=
    reconfigure_stage { init with st := .CHOOSE_THREAD } 2 1 [50, 10] [49, 10]
      (by decide) (by decide) (by decide) rfl (by decide) rfl rfl
  obtain ⟨s3, s4, hrun, -, hrecv, hstep, hbuf⟩ := hnext rfl rfl [97, 98, 10]
  have hf' : f = .reverse := by
    have e : mode_functions[1]? = some mod_fun.reverse := rfl
    rw [e] at hf
    cases hf
    rfl
  have hi : info = init.info1 := by
    have e : State.get_info { init with st := .CHOOSE_THREAD } (2 - 1) = .ok init.info1 := rfl
    rw [e] at hinfo
    cases hinfo
    rfl
  subst hf'
  subst hi
  have hr : s3.stage_in_buf 2 = [97, 98] := by rw [hrecv]; rfl
  refine ⟨s1, s2, s3, s4, h1, h2, hinfo2, hother, hrun, hr, hstep, ?_⟩
  rw [hbuf, hr]
  rfl

end Lab25
